import Mathlib

/-!
# SeoulDoc: checkpoint / partition / coordinator bookkeeping, verified

Shallow embedding of the checkpoint, partition, merge and job-coordinator
logic of the SeoulDoc scraper repository:

* `SecondPass/enrich_medical_info.py` — `PartitionedCheckpointManager`,
  `EnrichmentOrchestrator` (`filter_dataframe_by_partition`,
  `enrich_all_facilities`, `merge_all_partitions`);
* `ThirdPass/naver_review_scraper.py` — `ReviewCheckpointManager`,
  `ReviewScrapingOrchestrator` (`scrape_all_reviews`);
* `ThirdPass/merge.py` — `merge_worker_jsons`;
* `ThirdPass/coordinator_json.py` and `ThirdPass/coordinator_lightweight.py`
  — the `/get_job` and `/submit_result` endpoints and worker-file storage.

Python `dict`s keyed by `place_id` are embedded as association lists
`List (String × V)` with Python assignment semantics (`pyInsert`: replace
the value in place if the key exists, append otherwise) and Python `in` /
subscript lookup (`pyLookup`: first matching key).  Facility dataframes are
embedded as Lean lists of rows; positional indexing (`reset_index` +
boolean mask / `iloc`) is embedded as filtering `List.range` over row
indices.  The browser-driving scrape calls are opaque effectful calls and
enter the model as function parameters returning `Except String _`
(a raised exception being the `error` case).
-/

namespace SeoulDoc

/-! ## Python dict primitives -/

/-- `d[k]` / `k in d` lookup: first entry whose key is `k`
(a parsed JSON object or a dict built by assignment has unique keys). -/
def pyLookup {V : Type} (k : String) : List (String × V) → Option V
  | [] => none
  | (k2, v) :: rest => if k2 = k then some v else pyLookup k rest

/-- `d[k] = v`: replace the value in place when `k` is already a key,
append the new binding otherwise (Python dict assignment). -/
def pyInsert {V : Type} (k : String) (v : V) : List (String × V) → List (String × V)
  | [] => [(k, v)]
  | (k2, v2) :: rest =>
    if k2 = k then (k2, v) :: rest else (k2, v2) :: pyInsert k v rest

/-- `d.update(other)`: assign every binding of `other` into `d`, in order. -/
def pyUpdate {V : Type} (d other : List (String × V)) : List (String × V) :=
  other.foldl (fun acc kv => pyInsert kv.1 kv.2 acc) d

/-- The key list of a dict. -/
def dictKeys {V : Type} (d : List (String × V)) : List String := d.map Prod.fst

theorem pyLookup_pyInsert_self {V : Type} (k : String) (v : V)
    (d : List (String × V)) : pyLookup k (pyInsert k v d) = some v := by
  induction d with
  | nil => simp [pyInsert, pyLookup]
  | cons kv rest ih =>
    obtain ⟨k1, v1⟩ := kv
    by_cases h : k1 = k
    · simp [pyInsert, h, pyLookup]
    · simp [pyInsert, h, pyLookup, ih]

theorem pyLookup_pyInsert_ne {V : Type} {k k2 : String} (v : V)
    (d : List (String × V)) (h : k2 ≠ k) :
    pyLookup k2 (pyInsert k v d) = pyLookup k2 d := by
  induction d with
  | nil =>
    simp only [pyInsert, pyLookup]
    rw [if_neg fun h2 => h h2.symm]
  | cons kv rest ih =>
    obtain ⟨k1, v1⟩ := kv
    by_cases hk : k1 = k
    · subst hk
      simp only [pyInsert, if_pos rfl, pyLookup]
      rw [if_neg fun h2 => h h2.symm, if_neg fun h2 => h h2.symm]
    · simp only [pyInsert, if_neg hk, pyLookup, ih]

theorem mem_dictKeys_pyInsert {V : Type} (k k2 : String) (v : V)
    (d : List (String × V)) :
    k2 ∈ dictKeys (pyInsert k v d) ↔ k2 ∈ dictKeys d ∨ k2 = k := by
  induction d with
  | nil => simp [pyInsert, dictKeys]
  | cons kv rest ih =>
    obtain ⟨k1, v1⟩ := kv
    by_cases h : k1 = k
    · subst h
      simp [pyInsert, dictKeys]
      tauto
    · simp only [pyInsert, if_neg h, dictKeys, List.map_cons, List.mem_cons] at ih ⊢
      rw [ih]
      tauto

theorem pyLookup_isSome_iff_mem_dictKeys {V : Type} (k : String)
    (d : List (String × V)) : (pyLookup k d).isSome = true ↔ k ∈ dictKeys d := by
  induction d with
  | nil => simp [pyLookup, dictKeys]
  | cons kv rest ih =>
    obtain ⟨k1, v1⟩ := kv
    by_cases h : k1 = k
    · simp [pyLookup, h, dictKeys]
    · simp only [pyLookup, if_neg h, dictKeys, List.map_cons, List.mem_cons, ih]
      constructor
      · exact fun hm => Or.inr hm
      · rintro (hm | hm)
        · exact absurd hm.symm h
        · exact hm

theorem dictKeys_nodup_pyInsert {V : Type} (k : String) (v : V)
    (d : List (String × V)) (h : (dictKeys d).Nodup) :
    (dictKeys (pyInsert k v d)).Nodup := by
  induction d with
  | nil => simp [pyInsert, dictKeys]
  | cons kv rest ih =>
    obtain ⟨k1, v1⟩ := kv
    by_cases hk : k1 = k
    · simpa [pyInsert, hk, dictKeys] using h
    · simp only [dictKeys, List.map_cons, List.nodup_cons] at h
      simp only [pyInsert, if_neg hk, dictKeys, List.map_cons, List.nodup_cons]
      refine ⟨?_, ih h.2⟩
      intro hmem
      rcases (mem_dictKeys_pyInsert k k1 v rest).mp hmem with hm | hm
      · exact h.1 hm
      · exact hk hm

/-! ## Row-index modulo partitioning (C1)

`EnrichmentOrchestrator.filter_dataframe_by_partition` resets the index and
keeps rows where `row_index % total_partitions == partition_id`;
`ReviewScrapingOrchestrator.scrape_all_reviews` builds
`list(range(partition_x - 1, len(df), partition_y))` and takes `iloc` of it.
-/

/-- Indices kept by `filter_dataframe_by_partition`'s boolean mask:
`row_index % total_partitions == partition_id` over the reset index. -/
def partitionIndices (partition_id total_partitions n : Nat) : List Nat :=
  (List.range n).filter (fun i => i % total_partitions == partition_id)

/-- `filter_dataframe_by_partition`: the rows of `df` (after
`reset_index(drop=True)`) whose positional index passes the modulo mask. -/
def filter_dataframe_by_partition {Row : Type} (total_partitions partition_id : Nat)
    (df : List Row) : List Row :=
  (partitionIndices partition_id total_partitions df.length).filterMap
    (fun i => df.get? i)

/-- Python `range(start, stop, step)` for a positive step: the values
`i < stop` with `start ≤ i` and `(i - start) % step == 0`, ascending. -/
def pythonRange (start stop step : Nat) : List Nat :=
  (List.range stop).filter (fun i => decide (start ≤ i) && ((i - start) % step == 0))

/-- `scrape_all_reviews`' partition index list:
`list(range(partition_x - 1, len(facilities_df), partition_y))`. -/
def scrapePartitionIndices (partition_x partition_y n : Nat) : List Nat :=
  pythonRange (partition_x - 1) n partition_y

/-- The partition rows taken by `scrape_all_reviews` via
`facilities_df.iloc[partition_indices]`. -/
def scrapePartitionRows {Row : Type} (partition_x partition_y : Nat)
    (df : List Row) : List Row :=
  (scrapePartitionIndices partition_x partition_y df.length).filterMap
    (fun i => df.get? i)

theorem mem_partitionIndices {x Y n i : Nat} :
    i ∈ partitionIndices x Y n ↔ i < n ∧ i % Y = x := by
  simp [partitionIndices, List.mem_filter, List.mem_range]

theorem mem_pythonRange {start stop step i : Nat} :
    i ∈ pythonRange start stop step ↔
      i < stop ∧ start ≤ i ∧ (i - start) % step = 0 := by
  simp [pythonRange, List.mem_filter, List.mem_range, and_assoc]

/-- Shifted-modulo characterisation used to identify the two partition
encodings: for `1 ≤ X ≤ Y`, an index is in the 1-indexed stepped range
exactly when its residue mod `Y` is `X - 1`. -/
theorem sub_mod_eq_zero_iff {Y X i : Nat} (h1 : 1 ≤ X) (h2 : X ≤ Y) :
    (X - 1 ≤ i ∧ (i - (X - 1)) % Y = 0) ↔ i % Y = X - 1 := by
  have hY : 0 < Y := Nat.lt_of_lt_of_le h1 h2
  have ha : X - 1 < Y := by omega
  constructor
  · rintro ⟨hle, hmod⟩
    obtain ⟨c, hc⟩ := Nat.dvd_of_mod_eq_zero hmod
    have hi : i = (X - 1) + Y * c := by omega
    rw [hi, Nat.add_mul_mod_self_left, Nat.mod_eq_of_lt ha]
  · intro hmod
    have hle : X - 1 ≤ i := hmod ▸ Nat.mod_le i Y
    have hdecomp : Y * (i / Y) + i % Y = i := Nat.div_add_mod i Y
    refine ⟨hle, ?_⟩
    have : i - (X - 1) = Y * (i / Y) := by omega
    rw [this, Nat.mul_mod_right]

/-- C1: for every facility list and every number of partitions `Y ≥ 1`, the
`Y` modulo partition subsets (rows with `row_index % Y == X`, for
`X ∈ 0..Y-1`, as in `filter_dataframe_by_partition`) are pairwise disjoint
and cover the entire list, and the 1-indexed stepped-range encoding of
`scrape_all_reviews` (`range(X-1, n, Y)`) produces exactly the same
subsets. -/
theorem partition_modulo_split (Y : Nat) (hY : 1 ≤ Y) :
    (∀ n i, i < n → i % Y < Y ∧ i ∈ partitionIndices (i % Y) Y n) ∧
    (∀ n x1 x2, x1 ≠ x2 → ∀ i, i ∈ partitionIndices x1 Y n →
      i ∉ partitionIndices x2 Y n) ∧
    (∀ n x i, i ∈ partitionIndices x Y n → i < n ∧ x = i % Y) ∧
    (∀ n X, 1 ≤ X → X ≤ Y →
      scrapePartitionIndices X Y n = partitionIndices (X - 1) Y n) ∧
    (∀ (Row : Type) (df : List Row) (X : Nat), 1 ≤ X → X ≤ Y →
      scrapePartitionRows X Y df = filter_dataframe_by_partition Y (X - 1) df) := by
  have hrange : ∀ n X, 1 ≤ X → X ≤ Y →
      scrapePartitionIndices X Y n = partitionIndices (X - 1) Y n := by
    intro n X h1 h2
    unfold scrapePartitionIndices pythonRange partitionIndices
    apply List.filter_congr
    intro i _
    have hbeq : ∀ a b : Nat, (a == b) = decide (a = b) := fun a b => by
      by_cases h : a = b <;> simp [h]
    rw [hbeq, hbeq]
    have hiff := sub_mod_eq_zero_iff (i := i) h1 h2
    by_cases hC : i % Y = X - 1
    · obtain ⟨hA, hB⟩ := hiff.mpr hC
      simp [hA, hB, hC]
    · by_cases hA : X - 1 ≤ i
      · have hB : ¬(i - (X - 1)) % Y = 0 := fun hB => hC (hiff.mp ⟨hA, hB⟩)
        simp [hA, hB, hC]
      · simp [hA, hC]
  refine ⟨?_, ?_, ?_, hrange, ?_⟩
  · intro n i hi
    exact ⟨Nat.mod_lt i hY, mem_partitionIndices.mpr ⟨hi, rfl⟩⟩
  · intro n x1 x2 hne i h1 h2
    rw [mem_partitionIndices] at h1 h2
    exact hne (h1.2.symm.trans h2.2)
  · intro n x i hi
    have := mem_partitionIndices.mp hi
    exact ⟨this.1, this.2.symm⟩
  · intro Row df X h1 h2
    unfold scrapePartitionRows filter_dataframe_by_partition
    rw [hrange df.length X h1 h2]

/-- C1 witness: instantiation at `Y = 3`, with the partition membership of
index 5 among 7 rows evaluated concretely. -/
theorem partition_modulo_split_witness :
    1 ≤ 3 ∧ (5 % 3 < 3 ∧ 5 ∈ partitionIndices (5 % 3) 3 7) :=
  ⟨by decide, (partition_modulo_split 3 (by decide)).1 7 5 (by decide)⟩

/-! ## Merge-on-read deduplication (C3)

`merge.py: merge_worker_jsons` folds `all_results.update(worker_data)` over
the worker JSON files; `PartitionedCheckpointManager.merge_all_partitions`
folds `all_data.update(partition_data)` over the partition JSON files.
A file enters the model as its parsed JSON object (a dict).
-/

/-- `merge_worker_jsons`: start from `{}` and `update` with each worker
file's dict in read order. -/
def merge_worker_jsons {V : Type} (worker_files : List (List (String × V))) :
    List (String × V) :=
  worker_files.foldl (fun all_results worker_data => pyUpdate all_results worker_data) []

/-- `PartitionedCheckpointManager.merge_all_partitions`: start from `{}`
and `update` with each partition file's dict in (sorted) read order. -/
def merge_all_partitions {V : Type} (partition_files : List (List (String × V))) :
    List (String × V) :=
  partition_files.foldl (fun all_data partition_data => pyUpdate all_data partition_data) []

/-- The value the last file containing key `k` assigns to it. -/
def lastFileLookup {V : Type} (k : String) (files : List (List (String × V))) :
    Option V :=
  files.foldl (fun r f => (pyLookup k f).or r) none

theorem pyLookup_pyUpdate {V : Type} (k : String) (d o : List (String × V))
    (h : (dictKeys o).Nodup) :
    pyLookup k (pyUpdate d o) = (pyLookup k o).or (pyLookup k d) := by
  induction o generalizing d with
  | nil => simp [pyUpdate, pyLookup, Option.none_or]
  | cons kv rest ih =>
    obtain ⟨k1, v1⟩ := kv
    simp only [dictKeys, List.map_cons, List.nodup_cons] at h
    have hstep : pyUpdate d ((k1, v1) :: rest) = pyUpdate (pyInsert k1 v1 d) rest := rfl
    rw [hstep, ih _ h.2]
    by_cases hk : k1 = k
    · subst hk
      have hrest : pyLookup k1 rest = none := by
        cases hr : pyLookup k1 rest with
        | none => rfl
        | some w =>
          exfalso
          apply h.1
          show k1 ∈ dictKeys rest
          rw [← pyLookup_isSome_iff_mem_dictKeys, hr]
          rfl
      rw [hrest, Option.none_or, pyLookup_pyInsert_self]
      simp [pyLookup]
    · rw [pyLookup_pyInsert_ne _ _ (fun h2 => hk h2.symm)]
      simp [pyLookup, hk]

theorem mem_dictKeys_cons {V : Type} (k k1 : String) (v1 : V)
    (d : List (String × V)) :
    k ∈ dictKeys ((k1, v1) :: d) ↔ k = k1 ∨ k ∈ dictKeys d := by
  simp [dictKeys]

theorem mem_dictKeys_pyUpdate {V : Type} (k : String) (d o : List (String × V)) :
    k ∈ dictKeys (pyUpdate d o) ↔ k ∈ dictKeys d ∨ k ∈ dictKeys o := by
  induction o generalizing d with
  | nil => simp [pyUpdate, dictKeys]
  | cons kv rest ih =>
    obtain ⟨k1, v1⟩ := kv
    have hstep : pyUpdate d ((k1, v1) :: rest) = pyUpdate (pyInsert k1 v1 d) rest := rfl
    rw [hstep, ih, mem_dictKeys_pyInsert, mem_dictKeys_cons]
    tauto

theorem dictKeys_nodup_pyUpdate {V : Type} (d o : List (String × V))
    (h : (dictKeys d).Nodup) : (dictKeys (pyUpdate d o)).Nodup := by
  induction o generalizing d with
  | nil => simpa [pyUpdate] using h
  | cons kv rest ih =>
    obtain ⟨k1, v1⟩ := kv
    exact ih _ (dictKeys_nodup_pyInsert k1 v1 d h)

theorem dictKeys_nodup_foldl_pyUpdate {V : Type}
    (files : List (List (String × V))) (acc : List (String × V))
    (h : (dictKeys acc).Nodup) :
    (dictKeys (files.foldl pyUpdate acc)).Nodup := by
  induction files generalizing acc with
  | nil => simpa using h
  | cons f rest ih => exact ih _ (dictKeys_nodup_pyUpdate _ _ h)

theorem mem_dictKeys_foldl_pyUpdate {V : Type} (k : String)
    (files : List (List (String × V))) (acc : List (String × V)) :
    k ∈ dictKeys (files.foldl pyUpdate acc) ↔
      k ∈ dictKeys acc ∨ ∃ f ∈ files, k ∈ dictKeys f := by
  induction files generalizing acc with
  | nil => simp
  | cons f rest ih =>
    simp only [List.foldl_cons, ih, mem_dictKeys_pyUpdate, List.mem_cons]
    constructor
    · rintro ((h | h) | ⟨g, hg, hk⟩)
      · exact Or.inl h
      · exact Or.inr ⟨f, Or.inl rfl, h⟩
      · exact Or.inr ⟨g, Or.inr hg, hk⟩
    · rintro (h | ⟨g, (rfl | hg), hk⟩)
      · exact Or.inl (Or.inl h)
      · exact Or.inl (Or.inr hk)
      · exact Or.inr ⟨g, hg, hk⟩

theorem lastFileLookup_shift {V : Type} (k : String)
    (files : List (List (String × V))) (s : Option V) :
    files.foldl (fun r f => (pyLookup k f).or r) s = (lastFileLookup k files).or s := by
  induction files generalizing s with
  | nil => simp [lastFileLookup, Option.none_or]
  | cons f rest ih =>
    simp only [lastFileLookup, List.foldl_cons] at *
    rw [ih ((pyLookup k f).or s), ih ((pyLookup k f).or none),
      Option.or_none, Option.or_assoc]

theorem pyLookup_foldl_pyUpdate {V : Type} (k : String)
    (files : List (List (String × V))) (acc : List (String × V))
    (h : ∀ f ∈ files, (dictKeys f).Nodup) :
    pyLookup k (files.foldl pyUpdate acc) =
      (lastFileLookup k files).or (pyLookup k acc) := by
  induction files generalizing acc with
  | nil => simp [lastFileLookup, Option.none_or]
  | cons f rest ih =>
    simp only [List.foldl_cons]
    rw [ih _ (fun g hg => h g (List.mem_cons_of_mem _ hg)),
      pyLookup_pyUpdate _ _ _ (h f (List.mem_cons_self _ _))]
    simp only [lastFileLookup, List.foldl_cons]
    rw [lastFileLookup_shift k rest ((pyLookup k f).or none)]
    rw [Option.or_none, Option.or_assoc]
    rfl

theorem lastFileLookup_none {V : Type} (k : String)
    (r : List (List (String × V))) (h : ∀ g ∈ r, pyLookup k g = none) :
    lastFileLookup k r = none := by
  induction r with
  | nil => rfl
  | cons g rest ih =>
    simp only [lastFileLookup, List.foldl_cons]
    rw [h g (List.mem_cons_self _ _), Option.none_or,
      lastFileLookup_shift k rest none,
      ih (fun g2 hg2 => h g2 (List.mem_cons_of_mem _ hg2)), Option.none_or]

/-- C3: merging worker/partition JSON files yields a dict whose key set is
exactly the union of the files' `place_id` key sets, in which every
`place_id` appears exactly once, where the last file read wins on
conflicts, and whose size (the reported total of unique facilities) equals
the number of distinct `place_id`s across all files;
`merge_all_partitions` computes the same dict as `merge_worker_jsons`. -/
theorem merge_dedup_last_wins {V : Type}
    (files : List (List (String × V)))
    (hnd : ∀ f ∈ files, (dictKeys f).Nodup) :
    (dictKeys (merge_worker_jsons files)).Nodup ∧
    (∀ k, k ∈ dictKeys (merge_worker_jsons files) ↔ ∃ f ∈ files, k ∈ dictKeys f) ∧
    (∀ (l : List (List (String × V))) (f : List (String × V))
       (r : List (List (String × V))) (k : String) (v : V),
       files = l ++ f :: r → pyLookup k f = some v →
       (∀ g ∈ r, pyLookup k g = none) →
       pyLookup k (merge_worker_jsons files) = some v) ∧
    (merge_worker_jsons files).length = (files.flatMap dictKeys).toFinset.card ∧
    merge_all_partitions files = merge_worker_jsons files := by
  have hmem : ∀ k, k ∈ dictKeys (merge_worker_jsons files) ↔
      ∃ f ∈ files, k ∈ dictKeys f := by
    intro k
    unfold merge_worker_jsons
    rw [mem_dictKeys_foldl_pyUpdate]
    simp [dictKeys]
  have hnodup : (dictKeys (merge_worker_jsons files)).Nodup :=
    dictKeys_nodup_foldl_pyUpdate files [] (by simp [dictKeys])
  refine ⟨hnodup, hmem, ?_, ?_, rfl⟩
  · rintro l f r k v rfl hf hr
    unfold merge_worker_jsons
    rw [pyLookup_foldl_pyUpdate k _ _ hnd]
    have hempty : pyLookup k ([] : List (String × V)) = none := rfl
    rw [hempty, Option.or_none]
    unfold lastFileLookup
    rw [List.foldl_append, List.foldl_cons,
      lastFileLookup_shift k r _, lastFileLookup_none k r hr, Option.none_or, hf]
    rfl
  · have hlen : (merge_worker_jsons files).length =
        (dictKeys (merge_worker_jsons files)).length := by
      simp [dictKeys]
    rw [hlen, ← List.toFinset_card_of_nodup hnodup]
    congr 1
    apply Finset.ext
    intro k
    rw [List.mem_toFinset, List.mem_toFinset, hmem, List.mem_flatMap]

/-- C3 witness: two concrete worker files sharing the key "b"; each key
appears once in the merged dict. -/
theorem merge_dedup_last_wins_witness :
    (∀ f ∈ [[("a", (1 : Nat)), ("b", 2)], [("b", 3)]], (dictKeys f).Nodup) ∧
    (dictKeys (merge_worker_jsons [[("a", (1 : Nat)), ("b", 2)], [("b", 3)]])).Nodup :=
  ⟨by decide, (merge_dedup_last_wins [[("a", 1), ("b", 2)], [("b", 3)]] (by decide)).1⟩

/-! ## JSON checkpoint files: save / load (C6, C10)

The file system enters the model as a map from paths to file contents as
seen by `json.load`: `none` means the file does not exist (`open` raises,
or `Path.exists()` is false); `some (Except.error e)` means the file exists
but reading/parsing raises (corrupt or truncated JSON); `some (Except.ok d)`
means the file parses to the dict `d`.  `json.dump` of a JSON-serializable
dict writes a file that `json.load` parses back to the same dict, so
`save_progress` stores `Except.ok` of the dict itself.
-/

/-- File system: path maps to the parse outcome of the file's content. -/
abbrev FS (V : Type) := String → Option (Except String (List (String × V)))

namespace ReviewCheckpointManager

/-- `load_progress`: `json.load` the checkpoint file; any exception
(missing file, parse error) is caught and leaves `progress_data = {}`. -/
def load_progress {V : Type} (fs : FS V) (checkpoint_file : String) :
    List (String × V) :=
  match fs checkpoint_file with
  | some (Except.ok data) => data
  | some (Except.error _) => []
  | none => []

/-- `save_progress`: `json.dump(self.progress_data, f)` over the
checkpoint file. -/
def save_progress {V : Type} (fs : FS V) (checkpoint_file : String)
    (progress_data : List (String × V)) : FS V :=
  fun p => if p = checkpoint_file then some (Except.ok progress_data) else fs p

/-- The constructor: `progress_data = {}` and, if the checkpoint file
exists, `load_progress`. -/
def init {V : Type} (fs : FS V) (checkpoint_file : String) : List (String × V) :=
  if (fs checkpoint_file).isSome then load_progress fs checkpoint_file else []

/-- `is_processed`: `place_id in self.progress_data`. -/
def is_processed {V : Type} (progress_data : List (String × V))
    (place_id : String) : Bool :=
  (pyLookup place_id progress_data).isSome

/-- `add_facility`: `self.progress_data[place_id] = review_data`. -/
def add_facility {V : Type} (progress_data : List (String × V))
    (place_id : String) (review_data : V) : List (String × V) :=
  pyInsert place_id review_data progress_data

end ReviewCheckpointManager

namespace PartitionedCheckpointManager

/-- `load_progress` (same body as the review manager's). -/
def load_progress {V : Type} (fs : FS V) (checkpoint_file : String) :
    List (String × V) :=
  match fs checkpoint_file with
  | some (Except.ok data) => data
  | some (Except.error _) => []
  | none => []

/-- `save_progress`. -/
def save_progress {V : Type} (fs : FS V) (checkpoint_file : String)
    (progress_data : List (String × V)) : FS V :=
  fun p => if p = checkpoint_file then some (Except.ok progress_data) else fs p

/-- The constructor: `progress_data = {}`, then `load_progress` when the
partition checkpoint file exists. -/
def init {V : Type} (fs : FS V) (checkpoint_file : String) : List (String × V) :=
  if (fs checkpoint_file).isSome then load_progress fs checkpoint_file else []

/-- `is_processed`. -/
def is_processed {V : Type} (progress_data : List (String × V))
    (place_id : String) : Bool :=
  (pyLookup place_id progress_data).isSome

/-- `add_facility`. -/
def add_facility {V : Type} (progress_data : List (String × V))
    (place_id : String) (medical_info : V) : List (String × V) :=
  pyInsert place_id medical_info progress_data

end PartitionedCheckpointManager

/-- C6: saving a progress mapping of JSON-serializable entries with
`save_progress` and constructing a new checkpoint manager on the same
checkpoint file yields the saved mapping back, for both
`ReviewCheckpointManager` and `PartitionedCheckpointManager`: the
checkpoint survives a restart unchanged, which is what makes resume
possible. -/
theorem checkpoint_save_load_roundtrip {V : Type} (fs : FS V)
    (checkpoint_file : String) (progress_data : List (String × V)) :
    ReviewCheckpointManager.init
        (ReviewCheckpointManager.save_progress fs checkpoint_file progress_data)
        checkpoint_file = progress_data ∧
    PartitionedCheckpointManager.init
        (PartitionedCheckpointManager.save_progress fs checkpoint_file progress_data)
        checkpoint_file = progress_data := by
  constructor
  · unfold ReviewCheckpointManager.init ReviewCheckpointManager.save_progress
      ReviewCheckpointManager.load_progress
    simp
  · unfold PartitionedCheckpointManager.init PartitionedCheckpointManager.save_progress
      PartitionedCheckpointManager.load_progress
    simp

/-! ### Worker result files of `coordinator_json.py` (C10) -/

/-- `get_worker_file`: sanitize the worker id and place its JSON file in
the output directory. -/
def get_worker_file (output_dir worker_id : String) : String :=
  output_dir ++ "/" ++ ((worker_id.replace "/" "_").replace "\\" "_") ++ ".json"

/-- `load_worker_data`: read the worker's JSON file; a missing file
returns `{}`, and any exception while reading/parsing is swallowed by the
bare `except` and also returns `{}`. -/
def load_worker_data {V : Type} (fs : FS V) (output_dir worker_id : String) :
    List (String × V) :=
  match fs (get_worker_file output_dir worker_id) with
  | some (Except.ok data) => data
  | some (Except.error _) => []
  | none => []

/-- C10: loading persisted state is total at the public interface —
`load_worker_data` and both `load_progress` functions return the parsed
dict when the file parses, and the empty dict when the file is missing or
cannot be parsed; no error propagates to the caller. -/
theorem load_total_on_error {V : Type} (fs : FS V)
    (output_dir worker_id checkpoint_file : String) :
    (fs (get_worker_file output_dir worker_id) = none →
      load_worker_data fs output_dir worker_id = []) ∧
    (∀ e, fs (get_worker_file output_dir worker_id) = some (Except.error e) →
      load_worker_data fs output_dir worker_id = []) ∧
    (∀ d, fs (get_worker_file output_dir worker_id) = some (Except.ok d) →
      load_worker_data fs output_dir worker_id = d) ∧
    (fs checkpoint_file = none →
      ReviewCheckpointManager.load_progress fs checkpoint_file = [] ∧
      PartitionedCheckpointManager.load_progress fs checkpoint_file = []) ∧
    (∀ e, fs checkpoint_file = some (Except.error e) →
      ReviewCheckpointManager.load_progress fs checkpoint_file = [] ∧
      PartitionedCheckpointManager.load_progress fs checkpoint_file = []) ∧
    (∀ d, fs checkpoint_file = some (Except.ok d) →
      ReviewCheckpointManager.load_progress fs checkpoint_file = d ∧
      PartitionedCheckpointManager.load_progress fs checkpoint_file = d) := by
  refine ⟨?_, ?_, ?_, ?_, ?_, ?_⟩
  · intro h
    unfold load_worker_data
    rw [h]
  · intro e h
    unfold load_worker_data
    rw [h]
  · intro d h
    unfold load_worker_data
    rw [h]
  · intro h
    unfold ReviewCheckpointManager.load_progress
      PartitionedCheckpointManager.load_progress
    rw [h]
    exact ⟨rfl, rfl⟩
  · intro e h
    unfold ReviewCheckpointManager.load_progress
      PartitionedCheckpointManager.load_progress
    rw [h]
    exact ⟨rfl, rfl⟩
  · intro d h
    unfold ReviewCheckpointManager.load_progress
      PartitionedCheckpointManager.load_progress
    rw [h]
    exact ⟨rfl, rfl⟩

/-- C10 witness: a file system holding one corrupt worker file; the loader
returns the empty dict instead of failing. -/
theorem load_total_on_error_witness :
    ((fun p => if p = get_worker_file "./data/worker_results" "w1"
          then some (Except.error "Expecting value")
          else none : FS Nat) (get_worker_file "./data/worker_results" "w1") =
        some (Except.error "Expecting value")) ∧
    load_worker_data
        (fun p => if p = get_worker_file "./data/worker_results" "w1"
          then some (Except.error "Expecting value")
          else none : FS Nat) "./data/worker_results" "w1" = [] := by
  refine ⟨by simp, ?_⟩
  exact (load_total_on_error _ "./data/worker_results" "w1" "c").2.1
    "Expecting value" (by simp)

/-! ## ReviewScrapingOrchestrator constructor and partition files (C7)

`ReviewScrapingOrchestrator.__init__` validates `partition_x`/`partition_y`
(Python ints, embedded as `Int`), raises `ValueError` on bad values and
derives the partition-specific checkpoint file name with an f-string
(`str()` of a nonnegative Python int prints its decimal digits, which is
`Nat.repr`).  Proving that distinct partitions get distinct checkpoint
files needs injectivity of the decimal printer, obtained by relating
`Nat.toDigits` to `Nat.digits`.
-/

theorem toDigitsCore_eq_digits :
    ∀ (fuel n : Nat) (l : List Char), n < fuel →
      Nat.toDigitsCore 10 fuel n l =
        (if n = 0 then ['0']
         else ((Nat.digits 10 n).map Nat.digitChar).reverse) ++ l := by
  intro fuel
  induction fuel with
  | zero => intro n l h; omega
  | succ fuel ih =>
    intro n l h
    simp only [Nat.toDigitsCore]
    by_cases hdiv : n / 10 = 0
    · have hlt : n < 10 := by omega
      rw [if_pos hdiv]
      by_cases hn : n = 0
      · subst hn
        rw [if_pos rfl]
        rfl
      · rw [if_neg hn]
        rw [Nat.digits_def' (by norm_num : 1 < 10) (Nat.pos_of_ne_zero hn), hdiv]
        rw [Nat.mod_eq_of_lt hlt]
        simp
    · have hn : n ≠ 0 := by omega
      have hfuel : n / 10 < fuel := by omega
      rw [if_neg hdiv, ih (n / 10) _ hfuel, if_neg hdiv]
      rw [if_neg hn, Nat.digits_def' (by norm_num : 1 < 10) (Nat.pos_of_ne_zero hn)]
      simp [List.append_assoc]

theorem toDigits_eq_digits (n : Nat) :
    Nat.toDigits 10 n =
      if n = 0 then ['0'] else ((Nat.digits 10 n).map Nat.digitChar).reverse := by
  have h := toDigitsCore_eq_digits (n + 1) n [] (Nat.lt_succ_self n)
  simpa [Nat.toDigits] using h

theorem digitChar_inj_lt :
    ∀ d1, d1 < 10 → ∀ d2, d2 < 10 →
      Nat.digitChar d1 = Nat.digitChar d2 → d1 = d2 := by decide

theorem map_digitChar_inj :
    ∀ (l1 l2 : List Nat), (∀ d ∈ l1, d < 10) → (∀ d ∈ l2, d < 10) →
      l1.map Nat.digitChar = l2.map Nat.digitChar → l1 = l2 := by
  intro l1
  induction l1 with
  | nil =>
    intro l2 _ _ h
    cases l2 with
    | nil => rfl
    | cons b t => simp at h
  | cons a t1 ih =>
    intro l2 h1 h2 h
    cases l2 with
    | nil => simp at h
    | cons b t2 =>
      simp only [List.map_cons, List.cons.injEq] at h
      have ha : a = b :=
        digitChar_inj_lt a (h1 a (List.mem_cons_self a t1))
          b (h2 b (List.mem_cons_self b t2)) h.1
      have ht : t1 = t2 :=
        ih t2 (fun d hd => h1 d (List.mem_cons_of_mem _ hd))
          (fun d hd => h2 d (List.mem_cons_of_mem _ hd)) h.2
      rw [ha, ht]

theorem nat_repr_inj {m n : Nat} (h : Nat.repr m = Nat.repr n) : m = n := by
  have hdig : Nat.toDigits 10 m = Nat.toDigits 10 n := congrArg String.data h
  rw [toDigits_eq_digits, toDigits_eq_digits] at hdig
  have hmap0 : List.map Nat.digitChar [0] = ['0'] := rfl
  by_cases hm : m = 0 <;> by_cases hn : n = 0
  · rw [hm, hn]
  · exfalso
    rw [if_pos hm, if_neg hn] at hdig
    have hrev := congrArg List.reverse hdig
    simp only [List.reverse_reverse] at hrev
    have hzero : Nat.digits 10 n = [0] := by
      apply map_digitChar_inj _ _ (fun d hd => Nat.digits_lt_base (by norm_num) hd)
        (by intro d hd; simp at hd; omega)
      rw [← hrev, hmap0]
      rfl
    have := Nat.ofDigits_digits 10 n
    rw [hzero] at this
    simp [Nat.ofDigits] at this
    exact hn this.symm
  · exfalso
    rw [if_neg hm, if_pos hn] at hdig
    have hrev := congrArg List.reverse hdig
    simp only [List.reverse_reverse] at hrev
    have hzero : Nat.digits 10 m = [0] := by
      apply map_digitChar_inj _ _ (fun d hd => Nat.digits_lt_base (by norm_num) hd)
        (by intro d hd; simp at hd; omega)
      rw [hrev, hmap0]
      rfl
    have := Nat.ofDigits_digits 10 m
    rw [hzero] at this
    simp [Nat.ofDigits] at this
    exact hm this.symm
  · rw [if_neg hm, if_neg hn] at hdig
    have hrev := congrArg List.reverse hdig
    simp only [List.reverse_reverse] at hrev
    have hdigits : Nat.digits 10 m = Nat.digits 10 n :=
      map_digitChar_inj _ _ (fun d hd => Nat.digits_lt_base (by norm_num) hd)
        (fun d hd => Nat.digits_lt_base (by norm_num) hd) hrev
    have := congrArg (Nat.ofDigits 10) hdigits
    rwa [Nat.ofDigits_digits, Nat.ofDigits_digits] at this

/-- The orchestrator record: partition parameters (Python ints), the
checkpoint file path and the partition suffix. -/
structure ReviewScrapingOrchestrator where
  partition_x : Int
  partition_y : Int
  checkpoint_file : String
  partition_suffix : String
deriving DecidableEq

/-- The partition-specific checkpoint file name
`review_scraping_progress_p{X}_of_{Y}.json`. -/
def reviewCheckpointFileName (partition_x partition_y : Int) : String :=
  "review_scraping_progress_p" ++ toString partition_x ++ "_of_" ++
    toString partition_y ++ ".json"

/-- `ReviewScrapingOrchestrator.__init__`: validate the partition
parameters (raising `ValueError`, the `Except.error` case) and pick the
partition-specific checkpoint file when `partition_y > 1`. -/
def ReviewScrapingOrchestrator.init (output_dir : String)
    (partition_x partition_y : Int) : Except String ReviewScrapingOrchestrator :=
  if partition_y < 1 then
    Except.error ("partition_y must be >= 1, got " ++ toString partition_y)
  else if partition_x < 1 || partition_x > partition_y then
    Except.error ("partition_x must be between 1 and " ++ toString partition_y ++
      ", got " ++ toString partition_x)
  else if partition_y > 1 then
    Except.ok
      { partition_x := partition_x
        partition_y := partition_y
        checkpoint_file :=
          output_dir ++ "/" ++ reviewCheckpointFileName partition_x partition_y
        partition_suffix :=
          "_p" ++ toString partition_x ++ "_of_" ++ toString partition_y }
  else
    Except.ok
      { partition_x := partition_x
        partition_y := partition_y
        checkpoint_file := output_dir ++ "/review_scraping_progress.json"
        partition_suffix := "" }

theorem toString_int_ofNat (n : Nat) : toString (Int.ofNat n) = Nat.repr n := rfl

theorem reviewCheckpointFileName_inj {x1 x2 y : Int}
    (h1 : 1 ≤ x1) (h2 : 1 ≤ x2)
    (h : reviewCheckpointFileName x1 y = reviewCheckpointFileName x2 y) :
    x1 = x2 := by
  obtain ⟨n1, rfl⟩ := Int.eq_ofNat_of_zero_le (by omega : (0 : Int) ≤ x1)
  obtain ⟨n2, rfl⟩ := Int.eq_ofNat_of_zero_le (by omega : (0 : Int) ≤ x2)
  unfold reviewCheckpointFileName at h
  have hds := congrArg String.data h
  simp only [String.data_append] at hds
  have ha := List.append_cancel_right hds
  have hb := List.append_cancel_right ha
  have hc := List.append_cancel_right hb
  have hd := List.append_cancel_left hc
  have hrepr : Nat.repr n1 = Nat.repr n2 := String.ext hd
  have := nat_repr_inj hrepr
  simp [this]

/-- C7: `ReviewScrapingOrchestrator`'s constructor raises `ValueError`
exactly when `partition_y < 1` or `partition_x` lies outside
`1..partition_y`, succeeds for every pair with
`1 ≤ partition_x ≤ partition_y`, uses the partition-specific checkpoint
file `review_scraping_progress_p{X}_of_{Y}.json` when `partition_y > 1`,
and distinct partitions of the same run never share a progress file. -/
theorem orchestrator_partition_validation (output_dir : String) (x y : Int) :
    ((∃ o, ReviewScrapingOrchestrator.init output_dir x y = Except.ok o) ↔
      1 ≤ x ∧ x ≤ y) ∧
    ((∃ e, ReviewScrapingOrchestrator.init output_dir x y = Except.error e) ↔
      y < 1 ∨ x < 1 ∨ x > y) ∧
    (y > 1 → ∀ o, ReviewScrapingOrchestrator.init output_dir x y = Except.ok o →
      o.checkpoint_file = output_dir ++ "/" ++ reviewCheckpointFileName x y) ∧
    (∀ x1 x2 : Int, 1 ≤ x1 → x1 ≤ y → 1 ≤ x2 → x2 ≤ y → x1 ≠ x2 →
      reviewCheckpointFileName x1 y ≠ reviewCheckpointFileName x2 y) := by
  refine ⟨?_, ?_, ?_, ?_⟩
  · unfold ReviewScrapingOrchestrator.init
    split_ifs with hy hx hbig
    · simp
      omega
    · simp only [Bool.or_eq_true, decide_eq_true_eq] at hx
      simp
      omega
    · simp only [Bool.or_eq_true, decide_eq_true_eq] at hx
      simp
      omega
    · simp only [Bool.or_eq_true, decide_eq_true_eq] at hx
      simp
      omega
  · unfold ReviewScrapingOrchestrator.init
    split_ifs with hy hx hbig
    · simp
      omega
    · simp only [Bool.or_eq_true, decide_eq_true_eq] at hx
      simp
      omega
    · simp only [Bool.or_eq_true, decide_eq_true_eq] at hx
      simp
      omega
    · simp only [Bool.or_eq_true, decide_eq_true_eq] at hx
      simp
      omega
  · intro hbig o ho
    unfold ReviewScrapingOrchestrator.init at ho
    split_ifs at ho with hy hx hb
    cases ho
    rfl
  · intro x1 x2 hx1 hx1y hx2 hx2y hne hfile
    exact hne (reviewCheckpointFileName_inj hx1 hx2 hfile)

/-- C7 witness: partition 2 of 3 constructs successfully, and the theorem
applied at concrete arguments shows partitions 1 and 2 of 3 get different
checkpoint files. -/
theorem orchestrator_partition_validation_witness :
    ((1 : Int) ≤ 2 ∧ (2 : Int) ≤ 3) ∧
    (∃ o, ReviewScrapingOrchestrator.init "./data" 2 3 = Except.ok o) :=
  ⟨by decide, (orchestrator_partition_validation "./data" 2 3).1.mpr (by decide)⟩

/-! ## The scraping / enrichment loops (C2, C8)

`ReviewScrapingOrchestrator.scrape_all_reviews` iterates the facility rows:
skip when `is_processed(place_id)`, otherwise call the scraper and
`add_facility` — on an exception it adds an error entry instead.
`EnrichmentOrchestrator.enrich_all_facilities` does the same but first
skips facilities whose name contains neither `의원` nor `병원`.
The loops are instrumented to also return the list of `place_id`s for
which the scraper/enricher was actually invoked.
-/

/-- A facility row: `place_id` and `name` columns. -/
structure Facility where
  place_id : String
  name : String
deriving DecidableEq

/-- The review-scrape result dict for one facility. -/
structure ReviewData where
  has_reviews : Bool
  review_count : Nat
  reviews : List String
  review_html : Option String
  scrape_error : Option String
  scraped_at : String
deriving DecidableEq

/-- The entry stored by the `except` branch of `scrape_all_reviews`. -/
def reviewErrorEntry (e ts : String) : ReviewData :=
  { has_reviews := false, review_count := 0, reviews := [], review_html := none,
    scrape_error := some e, scraped_at := ts }

/-- The enrichment result dict for one facility. -/
structure MedicalInfo where
  has_medical_info : Bool
  medical_info_raw : Option String
  medical_info_parsed : List (String × String)
  parsing_success : Bool
  enrichment_error : Option String
  enriched_at : String
  verified_place_id : Option String
deriving DecidableEq

/-- The entry stored by the `except` branch of `enrich_all_facilities`. -/
def medicalErrorEntry (e ts : String) : MedicalInfo :=
  { has_medical_info := false, medical_info_raw := none, medical_info_parsed := [],
    parsing_success := false, enrichment_error := some e, enriched_at := ts,
    verified_place_id := none }

/-- Whether `cs` starts with `needle` (character lists). -/
def startsWithChars : List Char → List Char → Bool
  | _, [] => true
  | [], _ :: _ => false
  | c :: cs, d :: ds => c == d && startsWithChars cs ds

/-- Whether `needle` occurs contiguously in the character list. -/
def containsChars (needle : List Char) : List Char → Bool
  | [] => startsWithChars [] needle
  | c :: t => startsWithChars (c :: t) needle || containsChars needle t

/-- Python's `needle in hay` on strings. -/
def strContains (hay needle : String) : Bool :=
  containsChars needle.data hay.data

/-- `any(keyword in facility_name for keyword in ("의원", "병원"))`. -/
def isMedicalName (name : String) : Bool :=
  strContains name "의원" || strContains name "병원"

/-- The `scrape_all_reviews` facility loop. `scrape` is the opaque
browser-driving call (`Except.error` = raised exception); the second
component collects the `place_id`s actually scraped. -/
def scrape_all_reviews (scrape : String → String → Except String ReviewData)
    (ts : String) :
    List (String × ReviewData) → List Facility →
      List (String × ReviewData) × List String
  | progress, [] => (progress, [])
  | progress, f :: rest =>
    if ReviewCheckpointManager.is_processed progress f.place_id then
      scrape_all_reviews scrape ts progress rest
    else
      let review_data : ReviewData :=
        match scrape f.name f.place_id with
        | Except.ok d => d
        | Except.error e => reviewErrorEntry e ts
      let r := scrape_all_reviews scrape ts
        (ReviewCheckpointManager.add_facility progress f.place_id review_data) rest
      (r.1, f.place_id :: r.2)

/-- The `enrich_all_facilities` facility loop: skip non-medical names,
skip processed `place_id`s, otherwise enrich and `add_facility`. -/
def enrich_all_facilities (enrich : String → String → Except String MedicalInfo)
    (ts : String) :
    List (String × MedicalInfo) → List Facility →
      List (String × MedicalInfo) × List String
  | progress, [] => (progress, [])
  | progress, f :: rest =>
    if isMedicalName f.name = false then
      enrich_all_facilities enrich ts progress rest
    else if PartitionedCheckpointManager.is_processed progress f.place_id then
      enrich_all_facilities enrich ts progress rest
    else
      let medical_info : MedicalInfo :=
        match enrich f.name f.place_id with
        | Except.ok d => d
        | Except.error e => medicalErrorEntry e ts
      let r := enrich_all_facilities enrich ts
        (PartitionedCheckpointManager.add_facility progress f.place_id medical_info) rest
      (r.1, f.place_id :: r.2)

theorem scrape_all_reviews_nil (scrape : String → String → Except String ReviewData)
    (ts : String) (p : List (String × ReviewData)) :
    scrape_all_reviews scrape ts p [] = (p, []) := rfl

theorem scrape_all_reviews_cons_processed
    (scrape : String → String → Except String ReviewData) (ts : String)
    (p : List (String × ReviewData)) (f : Facility) (rest : List Facility)
    (h : ReviewCheckpointManager.is_processed p f.place_id = true) :
    scrape_all_reviews scrape ts p (f :: rest) =
      scrape_all_reviews scrape ts p rest := by
  simp only [scrape_all_reviews, if_pos h]

theorem scrape_all_reviews_cons_new
    (scrape : String → String → Except String ReviewData) (ts : String)
    (p : List (String × ReviewData)) (f : Facility) (rest : List Facility)
    (h : ¬ ReviewCheckpointManager.is_processed p f.place_id = true) :
    scrape_all_reviews scrape ts p (f :: rest) =
      ((scrape_all_reviews scrape ts
          (ReviewCheckpointManager.add_facility p f.place_id
            (match scrape f.name f.place_id with
             | Except.ok d => d
             | Except.error e => reviewErrorEntry e ts)) rest).1,
       f.place_id ::
        (scrape_all_reviews scrape ts
          (ReviewCheckpointManager.add_facility p f.place_id
            (match scrape f.name f.place_id with
             | Except.ok d => d
             | Except.error e => reviewErrorEntry e ts)) rest).2) := by
  simp only [scrape_all_reviews, if_neg h]

theorem enrich_all_facilities_nil (enrich : String → String → Except String MedicalInfo)
    (ts : String) (p : List (String × MedicalInfo)) :
    enrich_all_facilities enrich ts p [] = (p, []) := rfl

theorem enrich_all_facilities_cons_nonmedical
    (enrich : String → String → Except String MedicalInfo) (ts : String)
    (p : List (String × MedicalInfo)) (f : Facility) (rest : List Facility)
    (h : isMedicalName f.name = false) :
    enrich_all_facilities enrich ts p (f :: rest) =
      enrich_all_facilities enrich ts p rest := by
  simp only [enrich_all_facilities, if_pos h]

theorem enrich_all_facilities_cons_processed
    (enrich : String → String → Except String MedicalInfo) (ts : String)
    (p : List (String × MedicalInfo)) (f : Facility) (rest : List Facility)
    (hm : isMedicalName f.name = true)
    (h : PartitionedCheckpointManager.is_processed p f.place_id = true) :
    enrich_all_facilities enrich ts p (f :: rest) =
      enrich_all_facilities enrich ts p rest := by
  have hm2 : ¬ isMedicalName f.name = false := by simp [hm]
  simp only [enrich_all_facilities, if_neg hm2, if_pos h]

theorem enrich_all_facilities_cons_new
    (enrich : String → String → Except String MedicalInfo) (ts : String)
    (p : List (String × MedicalInfo)) (f : Facility) (rest : List Facility)
    (hm : isMedicalName f.name = true)
    (h : ¬ PartitionedCheckpointManager.is_processed p f.place_id = true) :
    enrich_all_facilities enrich ts p (f :: rest) =
      ((enrich_all_facilities enrich ts
          (PartitionedCheckpointManager.add_facility p f.place_id
            (match enrich f.name f.place_id with
             | Except.ok d => d
             | Except.error e => medicalErrorEntry e ts)) rest).1,
       f.place_id ::
        (enrich_all_facilities enrich ts
          (PartitionedCheckpointManager.add_facility p f.place_id
            (match enrich f.name f.place_id with
             | Except.ok d => d
             | Except.error e => medicalErrorEntry e ts)) rest).2) := by
  have hm2 : ¬ isMedicalName f.name = false := by simp [hm]
  simp only [enrich_all_facilities, if_neg hm2, if_neg h]

theorem scrape_preserves_processed
    (scrape : String → String → Except String ReviewData) (ts : String)
    (fs : List Facility) :
    ∀ (p : List (String × ReviewData)) (k : String),
      (pyLookup k p).isSome = true →
      pyLookup k (scrape_all_reviews scrape ts p fs).1 = pyLookup k p ∧
      k ∉ (scrape_all_reviews scrape ts p fs).2 := by
  induction fs with
  | nil =>
    intro p k hk
    rw [scrape_all_reviews_nil]
    exact ⟨rfl, by simp⟩
  | cons f rest ih =>
    intro p k hk
    by_cases hproc : ReviewCheckpointManager.is_processed p f.place_id = true
    · rw [scrape_all_reviews_cons_processed _ _ _ _ _ hproc]
      exact ih p k hk
    · have hne : k ≠ f.place_id := by
        intro heq
        rw [heq] at hk
        exact hproc hk
      rw [scrape_all_reviews_cons_new _ _ _ _ _ hproc]
      have hk2 : (pyLookup k (ReviewCheckpointManager.add_facility p f.place_id
          (match scrape f.name f.place_id with
           | Except.ok d => d
           | Except.error e => reviewErrorEntry e ts))).isSome = true := by
        unfold ReviewCheckpointManager.add_facility
        rw [pyLookup_pyInsert_ne _ _ hne]
        exact hk
      obtain ⟨h1, h2⟩ := ih _ k hk2
      refine ⟨?_, ?_⟩
      · rw [h1]
        unfold ReviewCheckpointManager.add_facility
        rw [pyLookup_pyInsert_ne _ _ hne]
      · intro hmem
        rcases List.mem_cons.mp hmem with heq | hmem2
        · exact hne heq
        · exact h2 hmem2

theorem scrape_adds_unprocessed
    (scrape : String → String → Except String ReviewData) (ts : String)
    (fs : List Facility) :
    ∀ (p : List (String × ReviewData)) (f : Facility), f ∈ fs →
      (pyLookup f.place_id (scrape_all_reviews scrape ts p fs).1).isSome = true := by
  induction fs with
  | nil =>
    intro p f hf
    simp at hf
  | cons g rest ih =>
    intro p f hf
    by_cases hproc : ReviewCheckpointManager.is_processed p g.place_id = true
    · rw [scrape_all_reviews_cons_processed _ _ _ _ _ hproc]
      rcases List.mem_cons.mp hf with heq | hmem
      · subst heq
        exact ((scrape_preserves_processed scrape ts rest) p f.place_id hproc).1 ▸ hproc
      · exact ih p f hmem
    · rw [scrape_all_reviews_cons_new _ _ _ _ _ hproc]
      rcases List.mem_cons.mp hf with heq | hmem
      · subst heq
        have hk2 : (pyLookup f.place_id (ReviewCheckpointManager.add_facility p f.place_id
            (match scrape f.name f.place_id with
             | Except.ok d => d
             | Except.error e => reviewErrorEntry e ts))).isSome = true := by
          unfold ReviewCheckpointManager.add_facility
          rw [pyLookup_pyInsert_self]
          rfl
        exact ((scrape_preserves_processed scrape ts rest) _ f.place_id hk2).1 ▸ hk2
      · exact ih _ f hmem

theorem scrape_untouched
    (scrape : String → String → Except String ReviewData) (ts : String)
    (fs : List Facility) :
    ∀ (p : List (String × ReviewData)) (k : String),
      (∀ f ∈ fs, f.place_id ≠ k) →
      pyLookup k (scrape_all_reviews scrape ts p fs).1 = pyLookup k p ∧
      k ∉ (scrape_all_reviews scrape ts p fs).2 := by
  induction fs with
  | nil =>
    intro p k _
    rw [scrape_all_reviews_nil]
    exact ⟨rfl, by simp⟩
  | cons f rest ih =>
    intro p k hk
    have hfk : f.place_id ≠ k := hk f (List.mem_cons_self f rest)
    have hrest : ∀ g ∈ rest, g.place_id ≠ k :=
      fun g hg => hk g (List.mem_cons_of_mem _ hg)
    by_cases hproc : ReviewCheckpointManager.is_processed p f.place_id = true
    · rw [scrape_all_reviews_cons_processed _ _ _ _ _ hproc]
      exact ih p k hrest
    · rw [scrape_all_reviews_cons_new _ _ _ _ _ hproc]
      obtain ⟨h1, h2⟩ := ih (ReviewCheckpointManager.add_facility p f.place_id
        (match scrape f.name f.place_id with
         | Except.ok d => d
         | Except.error e => reviewErrorEntry e ts)) k hrest
      refine ⟨?_, ?_⟩
      · rw [h1]
        unfold ReviewCheckpointManager.add_facility
        rw [pyLookup_pyInsert_ne _ _ (fun heq => hfk heq.symm)]
      · intro hmem
        rcases List.mem_cons.mp hmem with heq | hmem2
        · exact hfk heq.symm
        · exact h2 hmem2

theorem scrape_first_insert
    (scrape : String → String → Except String ReviewData) (ts : String)
    (fs : List Facility) :
    ∀ (p : List (String × ReviewData)) (f : Facility), f ∈ fs →
      (fs.map Facility.place_id).Nodup →
      pyLookup f.place_id p = none →
      pyLookup f.place_id (scrape_all_reviews scrape ts p fs).1 =
        some (match scrape f.name f.place_id with
              | Except.ok d => d
              | Except.error e => reviewErrorEntry e ts) := by
  induction fs with
  | nil =>
    intro p f hf
    simp at hf
  | cons g rest ih =>
    intro p f hf hnd h0
    simp only [List.map_cons, List.nodup_cons] at hnd
    rcases List.mem_cons.mp hf with heq | hmem
    · subst heq
      have hproc : ¬ ReviewCheckpointManager.is_processed p f.place_id = true := by
        unfold ReviewCheckpointManager.is_processed
        rw [h0]
        simp
      rw [scrape_all_reviews_cons_new _ _ _ _ _ hproc]
      have huntouched : ∀ g2 ∈ rest, g2.place_id ≠ f.place_id := by
        intro g2 hg2 heq2
        exact hnd.1 (heq2 ▸ List.mem_map_of_mem Facility.place_id hg2)
      have := (scrape_untouched scrape ts rest
        (ReviewCheckpointManager.add_facility p f.place_id
          (match scrape f.name f.place_id with
           | Except.ok d => d
           | Except.error e => reviewErrorEntry e ts)) f.place_id huntouched).1
      rw [this]
      unfold ReviewCheckpointManager.add_facility
      rw [pyLookup_pyInsert_self]
    · have hgne : g.place_id ≠ f.place_id := by
        intro heq2
        exact hnd.1 (heq2 ▸ List.mem_map_of_mem Facility.place_id hmem)
      by_cases hproc : ReviewCheckpointManager.is_processed p g.place_id = true
      · rw [scrape_all_reviews_cons_processed _ _ _ _ _ hproc]
        exact ih p f hmem hnd.2 h0
      · rw [scrape_all_reviews_cons_new _ _ _ _ _ hproc]
        apply ih _ f hmem hnd.2
        unfold ReviewCheckpointManager.add_facility
        rw [pyLookup_pyInsert_ne _ _ (fun heq2 => hgne heq2.symm)]
        exact h0

theorem enrich_preserves_processed
    (enrich : String → String → Except String MedicalInfo) (ts : String)
    (fs : List Facility) :
    ∀ (p : List (String × MedicalInfo)) (k : String),
      (pyLookup k p).isSome = true →
      pyLookup k (enrich_all_facilities enrich ts p fs).1 = pyLookup k p ∧
      k ∉ (enrich_all_facilities enrich ts p fs).2 := by
  induction fs with
  | nil =>
    intro p k hk
    rw [enrich_all_facilities_nil]
    exact ⟨rfl, by simp⟩
  | cons f rest ih =>
    intro p k hk
    by_cases hmed : isMedicalName f.name = true
    · by_cases hproc : PartitionedCheckpointManager.is_processed p f.place_id = true
      · rw [enrich_all_facilities_cons_processed _ _ _ _ _ hmed hproc]
        exact ih p k hk
      · have hne : k ≠ f.place_id := by
          intro heq
          rw [heq] at hk
          exact hproc hk
        rw [enrich_all_facilities_cons_new _ _ _ _ _ hmed hproc]
        have hk2 : (pyLookup k (PartitionedCheckpointManager.add_facility p f.place_id
            (match enrich f.name f.place_id with
             | Except.ok d => d
             | Except.error e => medicalErrorEntry e ts))).isSome = true := by
          unfold PartitionedCheckpointManager.add_facility
          rw [pyLookup_pyInsert_ne _ _ hne]
          exact hk
        obtain ⟨h1, h2⟩ := ih _ k hk2
        refine ⟨?_, ?_⟩
        · rw [h1]
          unfold PartitionedCheckpointManager.add_facility
          rw [pyLookup_pyInsert_ne _ _ hne]
        · intro hmem
          rcases List.mem_cons.mp hmem with heq | hmem2
          · exact hne heq
          · exact h2 hmem2
    · have hmed2 : isMedicalName f.name = false := by
        cases h : isMedicalName f.name
        · rfl
        · exact absurd h hmed
      rw [enrich_all_facilities_cons_nonmedical _ _ _ _ _ hmed2]
      exact ih p k hk

theorem enrich_untouched
    (enrich : String → String → Except String MedicalInfo) (ts : String)
    (fs : List Facility) :
    ∀ (p : List (String × MedicalInfo)) (k : String),
      (∀ f ∈ fs, isMedicalName f.name = true → f.place_id ≠ k) →
      pyLookup k (enrich_all_facilities enrich ts p fs).1 = pyLookup k p ∧
      k ∉ (enrich_all_facilities enrich ts p fs).2 := by
  induction fs with
  | nil =>
    intro p k _
    rw [enrich_all_facilities_nil]
    exact ⟨rfl, by simp⟩
  | cons f rest ih =>
    intro p k hk
    have hrest : ∀ g ∈ rest, isMedicalName g.name = true → g.place_id ≠ k :=
      fun g hg => hk g (List.mem_cons_of_mem _ hg)
    by_cases hmed : isMedicalName f.name = true
    · have hfk : f.place_id ≠ k := hk f (List.mem_cons_self f rest) hmed
      by_cases hproc : PartitionedCheckpointManager.is_processed p f.place_id = true
      · rw [enrich_all_facilities_cons_processed _ _ _ _ _ hmed hproc]
        exact ih p k hrest
      · rw [enrich_all_facilities_cons_new _ _ _ _ _ hmed hproc]
        obtain ⟨h1, h2⟩ := ih (PartitionedCheckpointManager.add_facility p f.place_id
          (match enrich f.name f.place_id with
           | Except.ok d => d
           | Except.error e => medicalErrorEntry e ts)) k hrest
        refine ⟨?_, ?_⟩
        · rw [h1]
          unfold PartitionedCheckpointManager.add_facility
          rw [pyLookup_pyInsert_ne _ _ (fun heq => hfk heq.symm)]
        · intro hmem
          rcases List.mem_cons.mp hmem with heq | hmem2
          · exact hfk heq.symm
          · exact h2 hmem2
    · have hmed2 : isMedicalName f.name = false := by
        cases h : isMedicalName f.name
        · rfl
        · exact absurd h hmed
      rw [enrich_all_facilities_cons_nonmedical _ _ _ _ _ hmed2]
      exact ih p k hrest

theorem enrich_adds_unprocessed
    (enrich : String → String → Except String MedicalInfo) (ts : String)
    (fs : List Facility) :
    ∀ (p : List (String × MedicalInfo)) (f : Facility), f ∈ fs →
      isMedicalName f.name = true →
      (pyLookup f.place_id (enrich_all_facilities enrich ts p fs).1).isSome = true := by
  induction fs with
  | nil =>
    intro p f hf
    simp at hf
  | cons g rest ih =>
    intro p f hf hfmed
    by_cases hgmed : isMedicalName g.name = true
    · by_cases hproc : PartitionedCheckpointManager.is_processed p g.place_id = true
      · rw [enrich_all_facilities_cons_processed _ _ _ _ _ hgmed hproc]
        rcases List.mem_cons.mp hf with heq | hmem
        · subst heq
          exact ((enrich_preserves_processed enrich ts rest) p f.place_id hproc).1 ▸ hproc
        · exact ih p f hmem hfmed
      · rw [enrich_all_facilities_cons_new _ _ _ _ _ hgmed hproc]
        rcases List.mem_cons.mp hf with heq | hmem
        · subst heq
          have hk2 : (pyLookup f.place_id
              (PartitionedCheckpointManager.add_facility p f.place_id
                (match enrich f.name f.place_id with
                 | Except.ok d => d
                 | Except.error e => medicalErrorEntry e ts))).isSome = true := by
            unfold PartitionedCheckpointManager.add_facility
            rw [pyLookup_pyInsert_self]
            rfl
          exact ((enrich_preserves_processed enrich ts rest) _ f.place_id hk2).1 ▸ hk2
        · exact ih _ f hmem hfmed
    · have hgmed2 : isMedicalName g.name = false := by
        cases h : isMedicalName g.name
        · rfl
        · exact absurd h hgmed
      rw [enrich_all_facilities_cons_nonmedical _ _ _ _ _ hgmed2]
      rcases List.mem_cons.mp hf with heq | hmem
      · subst heq
        exact absurd hfmed (by simp [hgmed2])
      · exact ih p f hmem hfmed

theorem enrich_first_insert
    (enrich : String → String → Except String MedicalInfo) (ts : String)
    (fs : List Facility) :
    ∀ (p : List (String × MedicalInfo)) (f : Facility), f ∈ fs →
      (fs.map Facility.place_id).Nodup →
      isMedicalName f.name = true →
      pyLookup f.place_id p = none →
      pyLookup f.place_id (enrich_all_facilities enrich ts p fs).1 =
        some (match enrich f.name f.place_id with
              | Except.ok d => d
              | Except.error e => medicalErrorEntry e ts) := by
  induction fs with
  | nil =>
    intro p f hf
    simp at hf
  | cons g rest ih =>
    intro p f hf hnd hfmed h0
    simp only [List.map_cons, List.nodup_cons] at hnd
    rcases List.mem_cons.mp hf with heq | hmem
    · subst heq
      have hproc : ¬ PartitionedCheckpointManager.is_processed p f.place_id = true := by
        unfold PartitionedCheckpointManager.is_processed
        rw [h0]
        simp
      rw [enrich_all_facilities_cons_new _ _ _ _ _ hfmed hproc]
      have huntouched : ∀ g2 ∈ rest, isMedicalName g2.name = true →
          g2.place_id ≠ f.place_id := by
        intro g2 hg2 _ heq2
        exact hnd.1 (heq2 ▸ List.mem_map_of_mem Facility.place_id hg2)
      have := (enrich_untouched enrich ts rest
        (PartitionedCheckpointManager.add_facility p f.place_id
          (match enrich f.name f.place_id with
           | Except.ok d => d
           | Except.error e => medicalErrorEntry e ts)) f.place_id huntouched).1
      rw [this]
      unfold PartitionedCheckpointManager.add_facility
      rw [pyLookup_pyInsert_self]
    · have hgne : g.place_id ≠ f.place_id := by
        intro heq2
        exact hnd.1 (heq2 ▸ List.mem_map_of_mem Facility.place_id hmem)
      by_cases hgmed : isMedicalName g.name = true
      · by_cases hproc : PartitionedCheckpointManager.is_processed p g.place_id = true
        · rw [enrich_all_facilities_cons_processed _ _ _ _ _ hgmed hproc]
          exact ih p f hmem hnd.2 hfmed h0
        · rw [enrich_all_facilities_cons_new _ _ _ _ _ hgmed hproc]
          apply ih _ f hmem hnd.2 hfmed
          unfold PartitionedCheckpointManager.add_facility
          rw [pyLookup_pyInsert_ne _ _ (fun heq2 => hgne heq2.symm)]
          exact h0
      · have hgmed2 : isMedicalName g.name = false := by
          cases h : isMedicalName g.name
          · rfl
          · exact absurd h hgmed
        rw [enrich_all_facilities_cons_nonmedical _ _ _ _ _ hgmed2]
        exact ih p f hmem hnd.2 hfmed h0

/-- C2 counterexample: `enrich_all_facilities` skips a facility whose name
contains neither `의원` nor `병원` even when its `place_id` is not in the
progress mapping, so no entry is added — contradicting the claim that
every facility absent from the mapping is processed and recorded. -/
theorem checkpoint_skip_cex :
    pyLookup "101"
      (enrich_all_facilities
        (fun _ _ => Except.ok (medicalErrorEntry "unused" "t")) "t" []
        [{ place_id := "101", name := "서울약국" }]).1 = none ∧
    (enrich_all_facilities
        (fun _ _ => Except.ok (medicalErrorEntry "unused" "t")) "t" []
        [{ place_id := "101", name := "서울약국" }]).2 = [] := by
  exact ⟨rfl, rfl⟩

/-- C2 (amended): on every run of the scraping loops, a facility whose
`place_id` is a key of the loaded progress mapping is skipped — not
scraped/enriched again and its entry left unchanged; a facility whose
`place_id` is absent is processed and an entry added, except that
`enrich_all_facilities` additionally skips (without adding an entry)
facilities whose name contains neither `의원` nor `병원`. -/
theorem checkpoint_skip_amended
    (scrape : String → String → Except String ReviewData)
    (enrich : String → String → Except String MedicalInfo)
    (ts : String) (facilities : List Facility)
    (progress : List (String × ReviewData))
    (eprogress : List (String × MedicalInfo))
    (hnodup : (facilities.map Facility.place_id).Nodup) :
    (∀ f ∈ facilities,
      ((pyLookup f.place_id progress).isSome = true →
        pyLookup f.place_id (scrape_all_reviews scrape ts progress facilities).1 =
          pyLookup f.place_id progress ∧
        f.place_id ∉ (scrape_all_reviews scrape ts progress facilities).2) ∧
      (pyLookup f.place_id progress = none →
        (pyLookup f.place_id
          (scrape_all_reviews scrape ts progress facilities).1).isSome = true)) ∧
    (∀ f ∈ facilities,
      ((pyLookup f.place_id eprogress).isSome = true →
        pyLookup f.place_id (enrich_all_facilities enrich ts eprogress facilities).1 =
          pyLookup f.place_id eprogress ∧
        f.place_id ∉ (enrich_all_facilities enrich ts eprogress facilities).2) ∧
      (pyLookup f.place_id eprogress = none → isMedicalName f.name = true →
        (pyLookup f.place_id
          (enrich_all_facilities enrich ts eprogress facilities).1).isSome = true) ∧
      (pyLookup f.place_id eprogress = none → isMedicalName f.name = false →
        pyLookup f.place_id (enrich_all_facilities enrich ts eprogress facilities).1 =
          none ∧
        f.place_id ∉ (enrich_all_facilities enrich ts eprogress facilities).2)) := by
  constructor
  · intro f _
    refine ⟨fun hk => scrape_preserves_processed scrape ts facilities progress
      f.place_id hk, fun _ => ?_⟩
    exact scrape_adds_unprocessed scrape ts facilities progress f ‹f ∈ facilities›
  · intro f hf
    refine ⟨fun hk => enrich_preserves_processed enrich ts facilities eprogress
      f.place_id hk, fun _ hmed => ?_, fun h0 hmed => ?_⟩
    · exact enrich_adds_unprocessed enrich ts facilities eprogress f hf hmed
    · have hcond : ∀ g ∈ facilities, isMedicalName g.name = true →
          g.place_id ≠ f.place_id := by
        intro g hg hgmed heq
        have : g = f := by
          have hinj := List.inj_on_of_nodup_map hnodup
          exact hinj hg hf heq
        rw [this] at hgmed
        rw [hgmed] at hmed
        exact Bool.noConfusion hmed
      obtain ⟨h1, h2⟩ := enrich_untouched enrich ts facilities eprogress
        f.place_id hcond
      exact ⟨h1.trans h0, h2⟩

/-- C2 witness: a one-facility run starting from an empty checkpoint adds
an entry for the facility. -/
theorem checkpoint_skip_amended_witness :
    (([{ place_id := "1", name := "강남의원" }] : List Facility).map
        Facility.place_id).Nodup ∧
    (pyLookup "1"
      (scrape_all_reviews (fun _ _ => Except.error "b") "t" []
        [{ place_id := "1", name := "강남의원" }]).1).isSome = true := by
  refine ⟨by decide, ?_⟩
  exact ((checkpoint_skip_amended (fun _ _ => Except.error "b")
      (fun _ _ => Except.error "b") "t"
      [{ place_id := "1", name := "강남의원" }] [] [] (by decide)).1
      { place_id := "1", name := "강남의원" } (by decide)).2 rfl

/-- C8: when scraping/enriching a facility raises an exception, an entry
for its `place_id` is still added (error message stored,
`has_reviews`/`has_medical_info` false); on any later run the facility
counts as processed, its entry stays unchanged and it is never retried. -/
theorem error_entry_permanent
    (scrape1 scrape2 : String → String → Except String ReviewData)
    (enrich1 enrich2 : String → String → Except String MedicalInfo)
    (ts1 ts2 : String) (facilities : List Facility)
    (progress : List (String × ReviewData))
    (eprogress : List (String × MedicalInfo))
    (f : Facility) (e : String)
    (hf : f ∈ facilities)
    (hnodup : (facilities.map Facility.place_id).Nodup) :
    (scrape1 f.name f.place_id = Except.error e →
      pyLookup f.place_id progress = none →
      pyLookup f.place_id (scrape_all_reviews scrape1 ts1 progress facilities).1 =
          some (reviewErrorEntry e ts1) ∧
      (reviewErrorEntry e ts1).has_reviews = false ∧
      (reviewErrorEntry e ts1).scrape_error = some e ∧
      ReviewCheckpointManager.is_processed
        (scrape_all_reviews scrape1 ts1 progress facilities).1 f.place_id = true ∧
      f.place_id ∉ (scrape_all_reviews scrape2 ts2
          (scrape_all_reviews scrape1 ts1 progress facilities).1 facilities).2 ∧
      pyLookup f.place_id (scrape_all_reviews scrape2 ts2
          (scrape_all_reviews scrape1 ts1 progress facilities).1 facilities).1 =
        some (reviewErrorEntry e ts1)) ∧
    (enrich1 f.name f.place_id = Except.error e →
      pyLookup f.place_id eprogress = none →
      isMedicalName f.name = true →
      pyLookup f.place_id (enrich_all_facilities enrich1 ts1 eprogress facilities).1 =
          some (medicalErrorEntry e ts1) ∧
      (medicalErrorEntry e ts1).has_medical_info = false ∧
      (medicalErrorEntry e ts1).enrichment_error = some e ∧
      f.place_id ∉ (enrich_all_facilities enrich2 ts2
          (enrich_all_facilities enrich1 ts1 eprogress facilities).1 facilities).2 ∧
      pyLookup f.place_id (enrich_all_facilities enrich2 ts2
          (enrich_all_facilities enrich1 ts1 eprogress facilities).1 facilities).1 =
        some (medicalErrorEntry e ts1)) := by
  constructor
  · intro hs h0
    have hstored : pyLookup f.place_id
        (scrape_all_reviews scrape1 ts1 progress facilities).1 =
        some (reviewErrorEntry e ts1) := by
      have := scrape_first_insert scrape1 ts1 facilities progress f hf hnodup h0
      rw [hs] at this
      exact this
    have hsome : (pyLookup f.place_id
        (scrape_all_reviews scrape1 ts1 progress facilities).1).isSome = true := by
      rw [hstored]
      rfl
    obtain ⟨hpres, hnocall⟩ := scrape_preserves_processed scrape2 ts2 facilities
      (scrape_all_reviews scrape1 ts1 progress facilities).1 f.place_id hsome
    exact ⟨hstored, rfl, rfl, hsome, hnocall, hpres.trans hstored⟩
  · intro hs h0 hmed
    have hstored : pyLookup f.place_id
        (enrich_all_facilities enrich1 ts1 eprogress facilities).1 =
        some (medicalErrorEntry e ts1) := by
      have := enrich_first_insert enrich1 ts1 facilities eprogress f hf hnodup hmed h0
      rw [hs] at this
      exact this
    have hsome : (pyLookup f.place_id
        (enrich_all_facilities enrich1 ts1 eprogress facilities).1).isSome = true := by
      rw [hstored]
      rfl
    obtain ⟨hpres, hnocall⟩ := enrich_preserves_processed enrich2 ts2 facilities
      (enrich_all_facilities enrich1 ts1 eprogress facilities).1 f.place_id hsome
    exact ⟨hstored, rfl, rfl, hnocall, hpres.trans hstored⟩

/-- C8 witness: one facility whose scrape raises `boom`; the run stores the
error entry under its `place_id`. -/
theorem error_entry_permanent_witness :
    ({ place_id := "7", name := "B의원" } : Facility) ∈
        ([{ place_id := "7", name := "B의원" }] : List Facility) ∧
    pyLookup "7"
      (scrape_all_reviews (fun _ _ => Except.error "boom") "t1" []
        [{ place_id := "7", name := "B의원" }]).1 =
      some (reviewErrorEntry "boom" "t1") := by
  refine ⟨by decide, ?_⟩
  exact ((error_entry_permanent (fun _ _ => Except.error "boom")
      (fun _ _ => Except.ok (reviewErrorEntry "x" "t2"))
      (fun _ _ => Except.error "boom") (fun _ _ => Except.error "boom")
      "t1" "t2" [{ place_id := "7", name := "B의원" }] [] []
      { place_id := "7", name := "B의원" } "boom"
      (by decide) (by decide)).1 rfl rfl).1

/-! ## The job coordinators (C4, C5)

`coordinator_json.py` keeps a in-memory `jobs_queue` list and per-worker
JSON result files; `coordinator_lightweight.py` keeps a SQLite `jobs`
table (rows in insertion/rowid order, `place_id` PRIMARY KEY) and a
`results` table keyed by `place_id`.  A job row enters the model with all
columns of both variants; a `results` row is abstracted to its
`result_data` payload keyed by `place_id`.
-/

/-- One job of the queue / `jobs` table. -/
structure Job where
  place_id : String
  facility_name : String
  status : String
  worker_id : Option String
  assigned_at : Option String
  completed_at : Option String
  error : Option String
deriving DecidableEq

/-- The mutation `/get_job` applies to the job it hands out. -/
def markAssigned (wid ts : String) (j : Job) : Job :=
  { j with status := "in_progress", worker_id := some wid, assigned_at := some ts }

/-- `coordinator_json.get_job`: walk `jobs_queue`, hand out the first
`pending` job, mark it `in_progress` with worker and timestamp. -/
def get_job (wid ts : String) : List Job → List Job × Option (String × String)
  | [] => ([], none)
  | j :: rest =>
    if j.status = "pending" then
      (markAssigned wid ts j :: rest, some (j.place_id, j.facility_name))
    else
      (j :: (get_job wid ts rest).1, (get_job wid ts rest).2)

/-- SQL `UPDATE jobs SET ... WHERE place_id = ?`: transform every row
whose `place_id` matches. -/
def updateJobsByPid (pid : String) (upd : Job → Job) (jobs : List Job) : List Job :=
  jobs.map (fun j => if j.place_id = pid then upd j else j)

/-- `coordinator_lightweight.get_job`: `SELECT ... WHERE status='pending'
LIMIT 1` (first row in table order), then `UPDATE` that `place_id` to
`in_progress` with worker and timestamp. -/
def get_job_lw (wid ts : String) (jobs : List Job) :
    List Job × Option (String × String) :=
  match jobs.find? (fun j => j.status == "pending") with
  | none => (jobs, none)
  | some j => (updateJobsByPid j.place_id (markAssigned wid ts) jobs,
      some (j.place_id, j.facility_name))

/-- `coordinator_json.submit_result`'s queue update: set the status of the
first job with the submitted `place_id` and `break`. -/
def submitUpdateFirst (pid : String) (success : Bool) : List Job → List Job
  | [] => []
  | j :: rest =>
    if j.place_id = pid then
      { j with status := if success then "completed" else "failed" } :: rest
    else
      j :: submitUpdateFirst pid success rest

/-- State of `coordinator_json.py`: the job queue and the per-worker
result dicts (worker id maps to its JSON file's dict). -/
structure CoordinatorJsonState (V : Type) where
  jobs_queue : List Job
  worker_files : List (String × List (String × V))
deriving DecidableEq

/-- `coordinator_json.submit_result`: update the job status, then load the
worker's dict, assign `worker_data[place_id] = result_data`, save. -/
def submit_result {V : Type} (worker_id place_id : String) (result_data : V)
    (success : Bool) (st : CoordinatorJsonState V) : CoordinatorJsonState V :=
  { jobs_queue := submitUpdateFirst place_id success st.jobs_queue,
    worker_files :=
      pyInsert worker_id
        (pyInsert place_id result_data
          ((pyLookup worker_id st.worker_files).getD []))
        st.worker_files }

/-- State of `coordinator_lightweight.py`: the `jobs` table and the
`results` table (keyed by its `place_id` primary key). -/
structure CoordinatorLWState (V : Type) where
  jobs : List Job
  results : List (String × V)
deriving DecidableEq

/-- `coordinator_lightweight.submit_result`: on success, mark the job
`completed` and `INSERT OR REPLACE` the result row; on failure, mark the
job `failed` with the error and leave `results` untouched. -/
def submit_result_lw {V : Type} (place_id : String) (result_data : V)
    (success : Bool) (err : Option String) (ts : String)
    (st : CoordinatorLWState V) : CoordinatorLWState V :=
  if success then
    { jobs := updateJobsByPid place_id
        (fun j => { j with status := "completed", completed_at := some ts }) st.jobs,
      results := pyInsert place_id result_data st.results }
  else
    { jobs := updateJobsByPid place_id
        (fun j =>
          { j with status := "failed", error := err, completed_at := some ts })
        st.jobs,
      results := st.results }

theorem get_job_cons_pending (wid ts : String) (j : Job) (rest : List Job)
    (h : j.status = "pending") :
    get_job wid ts (j :: rest) =
      (markAssigned wid ts j :: rest, some (j.place_id, j.facility_name)) := by
  simp only [get_job, if_pos h]

theorem get_job_cons_not_pending (wid ts : String) (j : Job) (rest : List Job)
    (h : ¬ j.status = "pending") :
    get_job wid ts (j :: rest) =
      (j :: (get_job wid ts rest).1, (get_job wid ts rest).2) := by
  simp only [get_job, if_neg h]

theorem get_job_no_pending (wid ts : String) (jobs : List Job)
    (h : ∀ j ∈ jobs, j.status ≠ "pending") :
    get_job wid ts jobs = (jobs, none) := by
  induction jobs with
  | nil => rfl
  | cons j rest ih =>
    rw [get_job_cons_not_pending _ _ _ _ (h j (List.mem_cons_self j rest)),
      ih (fun k hk => h k (List.mem_cons_of_mem _ hk))]

theorem get_job_isSome_of_pending (wid ts : String) (jobs : List Job)
    (h : ∃ j ∈ jobs, j.status = "pending") :
    ((get_job wid ts jobs).2).isSome = true := by
  induction jobs with
  | nil => simp at h
  | cons j rest ih =>
    by_cases hj : j.status = "pending"
    · rw [get_job_cons_pending _ _ _ _ hj]
      rfl
    · rw [get_job_cons_not_pending _ _ _ _ hj]
      apply ih
      obtain ⟨k, hk, hkp⟩ := h
      rcases List.mem_cons.mp hk with heq | hmem
      · exact absurd (heq ▸ hkp) hj
      · exact ⟨k, hmem, hkp⟩

theorem get_job_first_pending (wid ts : String) (l : List Job) :
    ∀ (j : Job) (r : List Job), (∀ k ∈ l, k.status ≠ "pending") →
      j.status = "pending" →
      get_job wid ts (l ++ j :: r) =
        (l ++ markAssigned wid ts j :: r, some (j.place_id, j.facility_name)) := by
  induction l with
  | nil =>
    intro j r _ hj
    rw [List.nil_append, get_job_cons_pending _ _ _ _ hj, List.nil_append]
  | cons k l' ih =>
    intro j r hl hj
    rw [List.cons_append,
      get_job_cons_not_pending _ _ _ _ (hl k (List.mem_cons_self k l')),
      ih j r (fun k2 hk2 => hl k2 (List.mem_cons_of_mem _ hk2)) hj]
    rfl

theorem find?_pending_first (l : List Job) :
    ∀ (j : Job) (r : List Job), (∀ k ∈ l, k.status ≠ "pending") →
      j.status = "pending" →
      (l ++ j :: r).find? (fun k => k.status == "pending") = some j := by
  induction l with
  | nil =>
    intro j r _ hj
    rw [List.nil_append]
    simp [List.find?_cons, hj]
  | cons k l' ih =>
    intro j r hl hj
    rw [List.cons_append]
    have hk : (k.status == "pending") = false := by
      simp [hl k (List.mem_cons_self k l')]
    simp only [List.find?_cons, hk]
    exact ih j r (fun k2 hk2 => hl k2 (List.mem_cons_of_mem _ hk2)) hj

theorem updateJobsByPid_append (pid : String) (upd : Job → Job)
    (l : List Job) (j : Job) (r : List Job)
    (hl : ∀ k ∈ l, k.place_id ≠ pid) (hj : j.place_id = pid)
    (hr : ∀ k ∈ r, k.place_id ≠ pid) :
    updateJobsByPid pid upd (l ++ j :: r) = l ++ upd j :: r := by
  unfold updateJobsByPid
  rw [List.map_append, List.map_cons, if_pos hj]
  have h1 : List.map (fun k => if k.place_id = pid then upd k else k) l = l := by
    have := List.map_congr_left (l := l)
      (f := fun k => if k.place_id = pid then upd k else k) (g := id)
      (fun k hk => by simp [hl k hk])
    rw [this, List.map_id]
  have h2 : List.map (fun k => if k.place_id = pid then upd k else k) r = r := by
    have := List.map_congr_left (l := r)
      (f := fun k => if k.place_id = pid then upd k else k) (g := id)
      (fun k hk => by simp [hr k hk])
    rw [this, List.map_id]
  rw [h1, h2]

/-- C4: on `/get_job`, if some job is `pending` the coordinators hand out
the first pending job (its `place_id` and `facility_name`) and set exactly
that job to `in_progress` with the requesting worker id and an assignment
timestamp; if no job is pending they return `job = None` and change no
job.  Holds for `coordinator_json` unconditionally and for
`coordinator_lightweight` under its `place_id` primary-key constraint. -/
theorem get_job_spec (wid ts : String) (jobs : List Job) :
    ((∀ j ∈ jobs, j.status ≠ "pending") →
      get_job wid ts jobs = (jobs, none) ∧ get_job_lw wid ts jobs = (jobs, none)) ∧
    ((∃ j ∈ jobs, j.status = "pending") →
      ((get_job wid ts jobs).2).isSome = true) ∧
    (∀ (l : List Job) (j : Job) (r : List Job), jobs = l ++ j :: r →
      (∀ k ∈ l, k.status ≠ "pending") → j.status = "pending" →
      get_job wid ts jobs =
        (l ++ markAssigned wid ts j :: r, some (j.place_id, j.facility_name)) ∧
      (markAssigned wid ts j).status = "in_progress" ∧
      (markAssigned wid ts j).worker_id = some wid ∧
      (markAssigned wid ts j).assigned_at = some ts) ∧
    ((jobs.map Job.place_id).Nodup →
      ∀ (l : List Job) (j : Job) (r : List Job), jobs = l ++ j :: r →
      (∀ k ∈ l, k.status ≠ "pending") → j.status = "pending" →
      get_job_lw wid ts jobs =
        (l ++ markAssigned wid ts j :: r, some (j.place_id, j.facility_name))) := by
  refine ⟨?_, get_job_isSome_of_pending wid ts jobs, ?_, ?_⟩
  · intro h
    refine ⟨get_job_no_pending wid ts jobs h, ?_⟩
    unfold get_job_lw
    have hfind : jobs.find? (fun j => j.status == "pending") = none := by
      rw [List.find?_eq_none]
      intro j hj
      simp [h j hj]
    rw [hfind]
  · rintro l j r rfl hl hj
    exact ⟨get_job_first_pending wid ts l j r hl hj, rfl, rfl, rfl⟩
  · rintro hnd l j r rfl hl hj
    unfold get_job_lw
    rw [find?_pending_first l j r hl hj]
    have hmaps : (l.map Job.place_id ++ j.place_id :: r.map Job.place_id).Nodup := by
      simpa [List.map_append] using hnd
    have hjl : ∀ k ∈ l, k.place_id ≠ j.place_id := by
      intro k hk heq
      have hdisj := List.disjoint_of_nodup_append hmaps
      exact hdisj (heq ▸ List.mem_map_of_mem Job.place_id hk)
        (List.mem_cons_self _ _)
    have hjr : ∀ k ∈ r, k.place_id ≠ j.place_id := by
      intro k hk heq
      have hright := (List.Nodup.of_append_right hmaps)
      rw [List.nodup_cons] at hright
      exact hright.1 (heq ▸ List.mem_map_of_mem Job.place_id hk)
    show (updateJobsByPid j.place_id (markAssigned wid ts) (l ++ j :: r),
      some (j.place_id, j.facility_name)) =
      (l ++ markAssigned wid ts j :: r, some (j.place_id, j.facility_name))
    rw [updateJobsByPid_append j.place_id _ l j r hjl rfl hjr]

/-- C4 witness: a queue whose first job is already `in_progress` and whose
second is `pending`; `get_job` hands out the second job. -/
theorem get_job_spec_witness :
    (([{ place_id := "a", facility_name := "A", status := "in_progress",
         worker_id := some "w0", assigned_at := some "t0",
         completed_at := none, error := none },
       { place_id := "b", facility_name := "B", status := "pending",
         worker_id := none, assigned_at := none,
         completed_at := none, error := none }] : List Job) =
      [{ place_id := "a", facility_name := "A", status := "in_progress",
         worker_id := some "w0", assigned_at := some "t0",
         completed_at := none, error := none }] ++
        { place_id := "b", facility_name := "B", status := "pending",
          worker_id := none, assigned_at := none,
          completed_at := none, error := none } :: []) ∧
    get_job "w1" "t1"
      [{ place_id := "a", facility_name := "A", status := "in_progress",
         worker_id := some "w0", assigned_at := some "t0",
         completed_at := none, error := none },
       { place_id := "b", facility_name := "B", status := "pending",
         worker_id := none, assigned_at := none,
         completed_at := none, error := none }] =
      ([{ place_id := "a", facility_name := "A", status := "in_progress",
          worker_id := some "w0", assigned_at := some "t0",
          completed_at := none, error := none },
        markAssigned "w1" "t1"
          { place_id := "b", facility_name := "B", status := "pending",
            worker_id := none, assigned_at := none,
            completed_at := none, error := none }], some ("b", "B")) := by
  refine ⟨rfl, ?_⟩
  exact (((get_job_spec "w1" "t1" _).2.2.1
    [{ place_id := "a", facility_name := "A", status := "in_progress",
       worker_id := some "w0", assigned_at := some "t0",
       completed_at := none, error := none }]
    { place_id := "b", facility_name := "B", status := "pending",
      worker_id := none, assigned_at := none,
      completed_at := none, error := none }
    [] rfl (by decide) rfl).1)

theorem map_pid_submitUpdateFirst (pid : String) (success : Bool) (q : List Job) :
    (submitUpdateFirst pid success q).map Job.place_id = q.map Job.place_id := by
  induction q with
  | nil => rfl
  | cons j rest ih =>
    by_cases h : j.place_id = pid
    · simp only [submitUpdateFirst, if_pos h, List.map_cons]
    · simp only [submitUpdateFirst, if_neg h, List.map_cons, ih]

theorem submitUpdateFirst_status (pid : String) (success : Bool) (q : List Job)
    (hnd : (q.map Job.place_id).Nodup) :
    ∀ j ∈ submitUpdateFirst pid success q, j.place_id = pid →
      j.status = if success then "completed" else "failed" := by
  induction q with
  | nil =>
    intro j hj
    simp [submitUpdateFirst] at hj
  | cons j0 rest ih =>
    simp only [List.map_cons, List.nodup_cons] at hnd
    intro j hj hpid
    by_cases h : j0.place_id = pid
    · simp only [submitUpdateFirst, if_pos h, List.mem_cons] at hj
      rcases hj with heq | hmem
      · rw [heq]
      · exfalso
        apply hnd.1
        rw [h, ← hpid]
        exact List.mem_map_of_mem Job.place_id hmem
    · simp only [submitUpdateFirst, if_neg h, List.mem_cons] at hj
      rcases hj with heq | hmem
      · exact absurd (heq ▸ hpid) h
      · exact ih hnd.2 j hmem hpid

theorem updateJobsByPid_status (upd : Job → Job) (pid : String) (q : List Job)
    (hpid : ∀ j, (upd j).place_id = j.place_id) :
    ∀ j ∈ updateJobsByPid pid upd q, j.place_id = pid →
      ∃ j0 ∈ q, j0.place_id = pid ∧ j = upd j0 := by
  intro j hj hjpid
  obtain ⟨j0, hj0, heq⟩ := List.mem_map.mp hj
  by_cases h : j0.place_id = pid
  · exact ⟨j0, hj0, h, by rw [← heq, if_pos h]⟩
  · exfalso
    rw [if_neg h] at heq
    exact h (heq ▸ hjpid)

theorem mem_pid_updateJobsByPid (upd : Job → Job) (pid : String) (q : List Job)
    (hpid : ∀ j, (upd j).place_id = j.place_id)
    {j : Job} (hj : j ∈ q) :
    ∃ j2 ∈ updateJobsByPid pid upd q, j2.place_id = j.place_id := by
  by_cases h : j.place_id = pid
  · refine ⟨upd j, List.mem_map.mpr ⟨j, hj, ?_⟩, hpid j⟩
    rw [if_pos h]
  · exact ⟨j, List.mem_map.mpr ⟨j, hj, by rw [if_neg h]⟩, rfl⟩

theorem submit_result_lw_true {V : Type} (place_id : String) (result_data : V)
    (err : Option String) (ts : String) (st : CoordinatorLWState V) :
    submit_result_lw place_id result_data true err ts st =
      { jobs := updateJobsByPid place_id
          (fun j => { j with status := "completed", completed_at := some ts })
          st.jobs,
        results := pyInsert place_id result_data st.results } := rfl

theorem submit_result_lw_false {V : Type} (place_id : String) (result_data : V)
    (err : Option String) (ts : String) (st : CoordinatorLWState V) :
    submit_result_lw place_id result_data false err ts st =
      { jobs := updateJobsByPid place_id
          (fun j =>
            { j with status := "failed", error := err, completed_at := some ts })
          st.jobs,
        results := st.results } := rfl

/-- C5 counterexample: `coordinator_lightweight.submit_result` with
`success = false` does not record `result_data` — the results table keeps
its old row — contradicting the claim that every submission's
`result_data` is recorded and overwrites the earlier result. -/
theorem submit_result_lw_failure_cex :
    (submit_result_lw "p" "new" false (some "boom") "t1"
      { jobs := [{ place_id := "p", facility_name := "F", status := "in_progress",
                   worker_id := some "w", assigned_at := some "t0",
                   completed_at := none, error := none }],
        results := [("p", "old")] }).results = [("p", "old")] ∧
    ¬ pyLookup "p" (submit_result_lw "p" "new" false (some "boom") "t1"
      { jobs := [{ place_id := "p", facility_name := "F", status := "in_progress",
                   worker_id := some "w", assigned_at := some "t0",
                   completed_at := none, error := none }],
        results := [("p", "old")] }).results = some "new" := by
  rw [submit_result_lw_false]
  exact ⟨rfl, by decide⟩

/-- C5 (amended): for a `/submit_result` whose `place_id` is a job in the
queue, both coordinators set that job's status to `completed` exactly when
`success` is true and to `failed` otherwise.  `coordinator_json` always
records `result_data` under `place_id` in the submitting worker's file,
overwriting any earlier result for that `place_id`;
`coordinator_lightweight` records (insert-or-replace) the result row only
when `success` is true and leaves the results table unchanged on
failure. -/
theorem submit_result_amended {V : Type} (worker_id place_id : String)
    (result_data : V) (success : Bool) (err : Option String) (ts : String)
    (stJ : CoordinatorJsonState V) (stL : CoordinatorLWState V)
    (hJ : ∃ j ∈ stJ.jobs_queue, j.place_id = place_id)
    (hndJ : (stJ.jobs_queue.map Job.place_id).Nodup)
    (hL : ∃ j ∈ stL.jobs, j.place_id = place_id) :
    (∃ j ∈ (submit_result worker_id place_id result_data success stJ).jobs_queue,
        j.place_id = place_id) ∧
    (∀ j ∈ (submit_result worker_id place_id result_data success stJ).jobs_queue,
        j.place_id = place_id →
        j.status = if success then "completed" else "failed") ∧
    pyLookup place_id
        ((pyLookup worker_id
          (submit_result worker_id place_id result_data success stJ).worker_files).getD
          []) = some result_data ∧
    (∃ j ∈ (submit_result_lw place_id result_data success err ts stL).jobs,
        j.place_id = place_id) ∧
    (success = true →
      pyLookup place_id
          (submit_result_lw place_id result_data success err ts stL).results =
        some result_data ∧
      ∀ j ∈ (submit_result_lw place_id result_data success err ts stL).jobs,
        j.place_id = place_id → j.status = "completed") ∧
    (success = false →
      (submit_result_lw place_id result_data success err ts stL).results =
        stL.results ∧
      ∀ j ∈ (submit_result_lw place_id result_data success err ts stL).jobs,
        j.place_id = place_id → j.status = "failed") := by
  obtain ⟨jq, hjq, hjqpid⟩ := hJ
  obtain ⟨jl, hjl, hjlpid⟩ := hL
  refine ⟨?_, ?_, ?_, ?_, ?_, ?_⟩
  · have hin : place_id ∈ (submit_result worker_id place_id result_data success
        stJ).jobs_queue.map Job.place_id := by
      show place_id ∈
        (submitUpdateFirst place_id success stJ.jobs_queue).map Job.place_id
      rw [map_pid_submitUpdateFirst]
      exact hjqpid ▸ List.mem_map_of_mem Job.place_id hjq
    obtain ⟨j2, hj2, hj2pid⟩ := List.mem_map.mp hin
    exact ⟨j2, hj2, hj2pid⟩
  · exact submitUpdateFirst_status place_id success stJ.jobs_queue hndJ
  · show pyLookup place_id ((pyLookup worker_id (pyInsert worker_id _ _)).getD []) =
      some result_data
    rw [pyLookup_pyInsert_self]
    show pyLookup place_id (pyInsert place_id result_data _) = some result_data
    rw [pyLookup_pyInsert_self]
  · cases success
    · rw [submit_result_lw_false]
      obtain ⟨j2, hj2, hj2pid⟩ := mem_pid_updateJobsByPid
        (fun j =>
          { j with status := "failed", error := err, completed_at := some ts })
        place_id stL.jobs (fun j => rfl) hjl
      exact ⟨j2, hj2, hj2pid.trans hjlpid⟩
    · rw [submit_result_lw_true]
      obtain ⟨j2, hj2, hj2pid⟩ := mem_pid_updateJobsByPid
        (fun j => { j with status := "completed", completed_at := some ts })
        place_id stL.jobs (fun j => rfl) hjl
      exact ⟨j2, hj2, hj2pid.trans hjlpid⟩
  · rintro rfl
    rw [submit_result_lw_true]
    refine ⟨pyLookup_pyInsert_self _ _ _, ?_⟩
    intro j hj hjpid
    obtain ⟨j0, hj0, hj0pid, heq⟩ := updateJobsByPid_status
      (fun j => { j with status := "completed", completed_at := some ts })
      place_id stL.jobs (fun j => rfl) j hj hjpid
    rw [heq]
  · rintro rfl
    rw [submit_result_lw_false]
    refine ⟨rfl, ?_⟩
    intro j hj hjpid
    obtain ⟨j0, hj0, hj0pid, heq⟩ := updateJobsByPid_status
      (fun j =>
        { j with status := "failed", error := err, completed_at := some ts })
      place_id stL.jobs (fun j => rfl) j hj hjpid
    rw [heq]

theorem submit_result_amended_witness :
    (∃ j ∈ ([{ place_id := "p", facility_name := "F", status := "in_progress",
               worker_id := some "w", assigned_at := some "t0",
               completed_at := none, error := none }] : List Job),
        j.place_id = "p") ∧
    pyLookup "p"
        ((pyLookup "w"
          (submit_result "w" "p" "rd" true
            { jobs_queue :=
                [{ place_id := "p", facility_name := "F", status := "in_progress",
                   worker_id := some "w", assigned_at := some "t0",
                   completed_at := none, error := none }],
              worker_files := ([] : List (String × List (String × String))) }
            ).worker_files).getD []) = some "rd" := by
  refine ⟨⟨_, List.mem_cons_self _ _, rfl⟩, ?_⟩
  exact (submit_result_amended "w" "p" "rd" true none "t"
    { jobs_queue :=
        [{ place_id := "p", facility_name := "F", status := "in_progress",
           worker_id := some "w", assigned_at := some "t0",
           completed_at := none, error := none }],
      worker_files := ([] : List (String × List (String × String))) }
    { jobs := [{ place_id := "p", facility_name := "F", status := "in_progress",
                 worker_id := some "w", assigned_at := some "t0",
                 completed_at := none, error := none }],
      results := [] }
    ⟨_, List.mem_cons_self _ _, rfl⟩ (by decide)
    ⟨_, List.mem_cons_self _ _, rfl⟩).2.2.1

/-! ## Traces of coordinator operations (C9)

A client interaction is a sequence of `/get_job` and `/submit_result`
requests.  `getJobIdx` is `get_job` instrumented with the position of the
job it hands out (the bridge lemma `getJobIdx_erase` shows erasing the
index gives `get_job` back); `runOps` executes a request list and collects
the handed-out positions.
-/

/-- One coordinator request. -/
inductive CoordOp where
  | getJob (worker_id ts : String)
  | submitResult (place_id : String) (success : Bool)
deriving DecidableEq

/-- `get_job` instrumented with the index of the job handed out. -/
def getJobIdx (wid ts : String) : List Job → List Job × Option (Nat × String × String)
  | [] => ([], none)
  | j :: rest =>
    if j.status = "pending" then
      (markAssigned wid ts j :: rest, some (0, j.place_id, j.facility_name))
    else
      (j :: (getJobIdx wid ts rest).1,
       (getJobIdx wid ts rest).2.map (fun p => (p.1 + 1, p.2)))

/-- Execute one request against the queue; the second component is the
index handed out (for `/get_job` that found a pending job). -/
def stepOp (jobs : List Job) : CoordOp → List Job × Option Nat
  | CoordOp.getJob wid ts =>
    ((getJobIdx wid ts jobs).1, ((getJobIdx wid ts jobs).2).map Prod.fst)
  | CoordOp.submitResult pid success => (submitUpdateFirst pid success jobs, none)

/-- Execute a request sequence, collecting all handed-out indices. -/
def runOps : List Job → List CoordOp → List Job × List Nat
  | jobs, [] => (jobs, [])
  | jobs, op :: rest =>
    ((runOps (stepOp jobs op).1 rest).1,
     ((stepOp jobs op).2).toList ++ (runOps (stepOp jobs op).1 rest).2)

theorem getJobIdx_cons_pending (wid ts : String) (j : Job) (rest : List Job)
    (h : j.status = "pending") :
    getJobIdx wid ts (j :: rest) =
      (markAssigned wid ts j :: rest, some (0, j.place_id, j.facility_name)) := by
  simp only [getJobIdx, if_pos h]

theorem getJobIdx_cons_not_pending (wid ts : String) (j : Job) (rest : List Job)
    (h : ¬ j.status = "pending") :
    getJobIdx wid ts (j :: rest) =
      (j :: (getJobIdx wid ts rest).1,
       (getJobIdx wid ts rest).2.map (fun p => (p.1 + 1, p.2))) := by
  simp only [getJobIdx, if_neg h]

/-- Erasing the index instrumentation of `getJobIdx` yields `get_job`. -/
theorem getJobIdx_erase (wid ts : String) (q : List Job) :
    (getJobIdx wid ts q).1 = (get_job wid ts q).1 ∧
    ((getJobIdx wid ts q).2).map (fun p => p.2) = (get_job wid ts q).2 := by
  induction q with
  | nil => exact ⟨rfl, rfl⟩
  | cons j rest ih =>
    by_cases h : j.status = "pending"
    · rw [getJobIdx_cons_pending _ _ _ _ h, get_job_cons_pending _ _ _ _ h]
      exact ⟨rfl, rfl⟩
    · rw [getJobIdx_cons_not_pending _ _ _ _ h, get_job_cons_not_pending _ _ _ _ h]
      refine ⟨by rw [← ih.1], ?_⟩
      show (((getJobIdx wid ts rest).2.map (fun p => (p.1 + 1, p.2))).map
        (fun p => p.2)) = (get_job wid ts rest).2
      rw [← ih.2]
      cases (getJobIdx wid ts rest).2 with
      | none => rfl
      | some p => rfl

theorem getJobIdx_get?_not_pending (wid ts : String) (q : List Job) :
    ∀ (i : Nat) (j : Job), q.get? i = some j → j.status ≠ "pending" →
      (getJobIdx wid ts q).1.get? i = some j := by
  induction q with
  | nil =>
    intro i j h _
    simp at h
  | cons j0 rest ih =>
    intro i j h hst
    by_cases h0 : j0.status = "pending"
    · rw [getJobIdx_cons_pending _ _ _ _ h0]
      cases i with
      | zero =>
        have : j0 = j := by simpa using h
        rw [← this] at hst
        exact absurd h0 hst
      | succ i => exact h
    · rw [getJobIdx_cons_not_pending _ _ _ _ h0]
      cases i with
      | zero => exact h
      | succ i => exact ih i j h hst

theorem getJobIdx_handed (wid ts : String) (q : List Job) :
    ∀ (i : Nat), ((getJobIdx wid ts q).2).map Prod.fst = some i →
      ∃ j, q.get? i = some j ∧ j.status = "pending" ∧
        (getJobIdx wid ts q).1.get? i = some (markAssigned wid ts j) := by
  induction q with
  | nil =>
    intro i h
    simp [getJobIdx] at h
  | cons j0 rest ih =>
    intro i h
    by_cases h0 : j0.status = "pending"
    · rw [getJobIdx_cons_pending _ _ _ _ h0] at h ⊢
      have hi : i = 0 := by simpa using h.symm
      subst hi
      exact ⟨j0, rfl, h0, rfl⟩
    · rw [getJobIdx_cons_not_pending _ _ _ _ h0] at h ⊢
      cases hr : (getJobIdx wid ts rest).2 with
      | none =>
        rw [hr] at h
        simp at h
      | some p =>
        rw [hr] at h
        simp only [Option.map_some] at h
        obtain ⟨j, hj1, hj2, hj3⟩ := ih p.1 (by rw [hr]; rfl)
        have hi : i = p.1 + 1 := by simpa using h.symm
        subst hi
        exact ⟨j, hj1, hj2, hj3⟩

theorem submitUpdateFirst_cons_eq (pid : String) (s : Bool) (j : Job)
    (rest : List Job) (h : j.place_id = pid) :
    submitUpdateFirst pid s (j :: rest) =
      { j with status := if s then "completed" else "failed" } :: rest := by
  simp only [submitUpdateFirst, if_pos h]

theorem submitUpdateFirst_cons_ne (pid : String) (s : Bool) (j : Job)
    (rest : List Job) (h : ¬ j.place_id = pid) :
    submitUpdateFirst pid s (j :: rest) = j :: submitUpdateFirst pid s rest := by
  simp only [submitUpdateFirst, if_neg h]

theorem submitUpdateFirst_get? (pid : String) (s : Bool) (q : List Job) :
    ∀ (i : Nat) (j : Job), q.get? i = some j →
      (submitUpdateFirst pid s q).get? i = some j ∨
      (j.place_id = pid ∧ (submitUpdateFirst pid s q).get? i =
        some { j with status := if s then "completed" else "failed" }) := by
  induction q with
  | nil =>
    intro i j h
    simp at h
  | cons j0 rest ih =>
    intro i j h
    by_cases h0 : j0.place_id = pid
    · rw [submitUpdateFirst_cons_eq _ _ _ _ h0]
      cases i with
      | zero =>
        have : j0 = j := by simpa using h
        subst this
        exact Or.inr ⟨h0, rfl⟩
      | succ i => exact Or.inl h
    · rw [submitUpdateFirst_cons_ne _ _ _ _ h0]
      cases i with
      | zero => exact Or.inl h
      | succ i => exact ih i j h

theorem getJobIdx_length (wid ts : String) (q : List Job) :
    (getJobIdx wid ts q).1.length = q.length := by
  induction q with
  | nil => rfl
  | cons j rest ih =>
    by_cases h : j.status = "pending"
    · rw [getJobIdx_cons_pending _ _ _ _ h]
      rfl
    · rw [getJobIdx_cons_not_pending _ _ _ _ h]
      simp [ih]

theorem submitUpdateFirst_length (pid : String) (s : Bool) (q : List Job) :
    (submitUpdateFirst pid s q).length = q.length := by
  induction q with
  | nil => rfl
  | cons j rest ih =>
    by_cases h : j.place_id = pid
    · rw [submitUpdateFirst_cons_eq _ _ _ _ h]
      rfl
    · rw [submitUpdateFirst_cons_ne _ _ _ _ h]
      simp [ih]

theorem stepOp_length (q : List Job) (op : CoordOp) :
    ((stepOp q op).1).length = q.length := by
  cases op with
  | getJob wid ts => exact getJobIdx_length wid ts q
  | submitResult pid s => exact submitUpdateFirst_length pid s q

theorem stepOp_not_pending (q : List Job) (op : CoordOp) (i : Nat) (j : Job)
    (h : q.get? i = some j) (hst : j.status ≠ "pending") :
    ∃ j2, (stepOp q op).1.get? i = some j2 ∧ j2.status ≠ "pending" ∧
      j2.place_id = j.place_id := by
  cases op with
  | getJob wid ts =>
    exact ⟨j, getJobIdx_get?_not_pending wid ts q i j h hst, hst, rfl⟩
  | submitResult pid s =>
    rcases submitUpdateFirst_get? pid s q i j h with h2 | ⟨hpid, h2⟩
    · exact ⟨j, h2, hst, rfl⟩
    · refine ⟨_, h2, ?_, rfl⟩
      cases s
      · show ¬ ("failed" : String) = "pending"
        decide
      · show ¬ ("completed" : String) = "pending"
        decide

theorem stepOp_in_progress (q : List Job) (op : CoordOp) (i : Nat) (j : Job)
    (h : q.get? i = some j) (hst : j.status = "in_progress")
    (hop : ∀ pid s, op = CoordOp.submitResult pid s → pid ≠ j.place_id) :
    (stepOp q op).1.get? i = some j := by
  cases op with
  | getJob wid ts =>
    exact getJobIdx_get?_not_pending wid ts q i j h (by rw [hst]; decide)
  | submitResult pid s =>
    rcases submitUpdateFirst_get? pid s q i j h with h2 | ⟨hpid, h2⟩
    · exact h2
    · exact absurd hpid.symm (hop pid s rfl)

theorem runOps_not_pending (ops : List CoordOp) :
    ∀ (q : List Job) (i : Nat) (j : Job), q.get? i = some j →
      j.status ≠ "pending" →
      ∃ j2, (runOps q ops).1.get? i = some j2 ∧ j2.status ≠ "pending" ∧
        j2.place_id = j.place_id := by
  induction ops with
  | nil =>
    intro q i j h hst
    exact ⟨j, h, hst, rfl⟩
  | cons op rest ih =>
    intro q i j h hst
    obtain ⟨j2, h2, hst2, hpid2⟩ := stepOp_not_pending q op i j h hst
    obtain ⟨j3, h3, hst3, hpid3⟩ := ih (stepOp q op).1 i j2 h2 hst2
    exact ⟨j3, h3, hst3, hpid3.trans hpid2⟩

theorem runOps_in_progress (ops : List CoordOp) :
    ∀ (q : List Job) (i : Nat) (j : Job), q.get? i = some j →
      j.status = "in_progress" →
      (∀ pid success, CoordOp.submitResult pid success ∈ ops →
        pid ≠ j.place_id) →
      (runOps q ops).1.get? i = some j := by
  induction ops with
  | nil =>
    intro q i j h _ _
    exact h
  | cons op rest ih =>
    intro q i j h hst hops
    have h2 := stepOp_in_progress q op i j h hst
      (fun pid s heq => hops pid s (by rw [← heq]; exact List.mem_cons_self op rest))
    exact ih _ i j h2 hst
      (fun pid s hmem => hops pid s (List.mem_cons_of_mem _ hmem))

theorem runOps_handed_pending (ops : List CoordOp) :
    ∀ (q : List Job) (i : Nat), i ∈ (runOps q ops).2 →
      ∃ j, q.get? i = some j ∧ j.status = "pending" := by
  induction ops with
  | nil =>
    intro q i h
    simp [runOps] at h
  | cons op rest ih =>
    intro q i h
    rcases List.mem_append.mp h with hfirst | hrest
    · have hstep : (stepOp q op).2 = some i := by
        cases hs : (stepOp q op).2 with
        | none =>
          rw [hs] at hfirst
          simp at hfirst
        | some i2 =>
          rw [hs] at hfirst
          simp at hfirst
          rw [hfirst]
      cases op with
      | getJob wid ts =>
        obtain ⟨j, hj1, hj2, _⟩ := getJobIdx_handed wid ts q i hstep
        exact ⟨j, hj1, hj2⟩
      | submitResult pid s =>
        exact absurd hstep (by simp [stepOp])
    · obtain ⟨j2, hj2, hj2p⟩ := ih (stepOp q op).1 i hrest
      cases hq : q.get? i with
      | none =>
        exfalso
        have hlen : q.length ≤ i := List.get?_eq_none.mp hq
        have : (stepOp q op).1.get? i = none := by
          apply List.get?_eq_none.mpr
          rw [stepOp_length]
          exact hlen
        rw [this] at hj2
        exact Option.noConfusion hj2
      | some j =>
        by_cases hjp : j.status = "pending"
        · exact ⟨j, rfl, hjp⟩
        · exfalso
          obtain ⟨j3, h3, hst3, _⟩ := stepOp_not_pending q op i j hq hjp
          rw [h3] at hj2
          have : j3 = j2 := Option.some.inj hj2
          rw [this] at hst3
          exact hst3 hj2p

theorem runOps_handed_nodup (ops : List CoordOp) :
    ∀ (q : List Job), (runOps q ops).2.Nodup := by
  induction ops with
  | nil =>
    intro q
    simp [runOps]
  | cons op rest ih =>
    intro q
    show (((stepOp q op).2).toList ++ (runOps (stepOp q op).1 rest).2).Nodup
    cases hstep : (stepOp q op).2 with
    | none =>
      simpa using ih (stepOp q op).1
    | some i =>
      have hnotin : i ∉ (runOps (stepOp q op).1 rest).2 := by
        intro hmem
        obtain ⟨j, hj, hjp⟩ := runOps_handed_pending rest (stepOp q op).1 i hmem
        cases op with
        | submitResult pid s =>
          exact absurd hstep (by simp [stepOp])
        | getJob wid ts =>
          obtain ⟨j0, _, _, h3⟩ := getJobIdx_handed wid ts q i hstep
          have hj0 : (stepOp q (CoordOp.getJob wid ts)).1.get? i =
              some (markAssigned wid ts j0) := h3
          rw [hj0] at hj
          have : markAssigned wid ts j0 = j := Option.some.inj hj
          rw [← this] at hjp
          have hcontra : ("in_progress" : String) = "pending" := hjp
          exact absurd hcontra (by decide)
      simp only [Option.toList_some, List.singleton_append, List.nodup_cons]
      exact ⟨hnotin, ih (stepOp q op).1⟩

theorem get_job_lw_not_pending (wid ts : String) (s : List Job) (i : Nat) (j : Job)
    (h : s.get? i = some j) (hst : j.status ≠ "pending") :
    ∃ j2, (get_job_lw wid ts s).1.get? i = some j2 ∧ j2.status ≠ "pending" := by
  unfold get_job_lw
  cases hf : s.find? (fun k => k.status == "pending") with
  | none => exact ⟨j, h, hst⟩
  | some jf =>
    show ∃ j2, (updateJobsByPid jf.place_id (markAssigned wid ts) s).get? i =
      some j2 ∧ j2.status ≠ "pending"
    unfold updateJobsByPid
    rw [List.get?_map, h]
    by_cases hpid : j.place_id = jf.place_id
    · refine ⟨markAssigned wid ts j, by simp [hpid], ?_⟩
      show ¬ ("in_progress" : String) = "pending"
      decide
    · exact ⟨j, by simp [hpid], hst⟩

/-- C9: in every request sequence run from a freshly loaded job queue, the
handed-out job positions are pairwise distinct — no job is handed out by
`get_job` twice; once a job's status leaves `pending` it never returns to
`pending` (also under the lightweight coordinator's `get_job`), and a job
left `in_progress` whose `place_id` is never submitted stays `in_progress`
forever and is never reassigned.  `getJobIdx` is exactly `get_job` with
the handed index made visible. -/
theorem jobs_handed_once (q : List Job) (ops : List CoordOp)
    (h0 : ∀ j ∈ q, j.status = "pending") :
    (runOps q ops).2.Nodup ∧
    (∀ (s : List Job) (i : Nat) (j : Job), s.get? i = some j →
      j.status ≠ "pending" →
      ∃ j2, (runOps s ops).1.get? i = some j2 ∧ j2.status ≠ "pending" ∧
        j2.place_id = j.place_id) ∧
    (∀ (s : List Job) (i : Nat) (j : Job), s.get? i = some j →
      j.status = "in_progress" →
      (∀ pid success, CoordOp.submitResult pid success ∈ ops →
        pid ≠ j.place_id) →
      (runOps s ops).1.get? i = some j) ∧
    (∀ (wid ts : String) (s : List Job),
      (getJobIdx wid ts s).1 = (get_job wid ts s).1 ∧
      ((getJobIdx wid ts s).2).map (fun p => p.2) = (get_job wid ts s).2) ∧
    (∀ (wid ts : String) (s : List Job) (i : Nat) (j : Job),
      s.get? i = some j → j.status ≠ "pending" →
      ∃ j2, (get_job_lw wid ts s).1.get? i = some j2 ∧ j2.status ≠ "pending") :=
  ⟨runOps_handed_nodup ops q, runOps_not_pending ops, runOps_in_progress ops,
    getJobIdx_erase, get_job_lw_not_pending⟩

/-- C9 witness: two pending jobs, three `/get_job` requests and one
submission; the theorem applies and the handed-out index list of the
concrete run is duplicate-free. -/
theorem jobs_handed_once_witness :
    (∀ j ∈ ([{ place_id := "a", facility_name := "A", status := "pending",
               worker_id := none, assigned_at := none,
               completed_at := none, error := none },
             { place_id := "b", facility_name := "B", status := "pending",
               worker_id := none, assigned_at := none,
               completed_at := none, error := none }] : List Job),
        j.status = "pending") ∧
    (runOps
      [{ place_id := "a", facility_name := "A", status := "pending",
         worker_id := none, assigned_at := none,
         completed_at := none, error := none },
       { place_id := "b", facility_name := "B", status := "pending",
         worker_id := none, assigned_at := none,
         completed_at := none, error := none }]
      [CoordOp.getJob "w1" "t1", CoordOp.getJob "w2" "t2",
       CoordOp.getJob "w3" "t3", CoordOp.submitResult "a" true]).2.Nodup := by
  refine ⟨by decide, ?_⟩
  exact (jobs_handed_once
    [{ place_id := "a", facility_name := "A", status := "pending",
       worker_id := none, assigned_at := none,
       completed_at := none, error := none },
     { place_id := "b", facility_name := "B", status := "pending",
       worker_id := none, assigned_at := none,
       completed_at := none, error := none }]
    [CoordOp.getJob "w1" "t1", CoordOp.getJob "w2" "t2",
     CoordOp.getJob "w3" "t3", CoordOp.submitResult "a" true]
    (by decide)).1

end SeoulDoc
